import Mathlib

/-!
# dropwatch-ng: a shallow embedding of the alert decoder, the packet dissector
and the drop-monitor client

Sources embedded here:

* `dissector/packet.go`, `dissector/dissector.go` — `Packet`, `BasicDissector.DissectPacket`
* `dropmon/dropmon.go` — the `NET_DM_*` constants, `AlertMsg`, `AlertMsgPort.decode`,
  `DropMon.parseOrigin`, `DropMon.parseTime`, `DropMon.decodeAlertMessage`,
  `DropMon.EnableDropMonitor`, `DropMon.DisableDropMonitor`, `DropMon.Close`,
  the receive loop of `DropMon.Start`
* `dropwatch-ng.go` — the body of `processAlertMessages`
* `exporter/exporter.go`, `exporter/stdout_exporter.go`, `exporter/pcap_exporter.go`,
  `exporter/telegraf_exporter.go` — `WriteMsg`, the method `Write` of the three exporters,
  `TelegrafExporter.processMsg` and the loop of `TelegrafExporter.Start`

Go values are embedded as follows: a `[]byte` is a `List Nat` (every element below 256 for
a real slice), an unsigned machine integer is a `Nat` reduced modulo `2^w` where the source
converts, a pointer that may be nil is an `Option`, a Go `error` is an `Option` of an error
value, and a run-time panic is the `Except.error` branch of an `Except Fault`.  A loop
around a `select` is a step function over the sequence of events it takes, and a goroutine
started with `go` is an entry in the state of the exporter it sends to.
-/

namespace Dropwatch

/-! ## dissector/packet.go -/

/-- The Go struct `PacketEthernet`: every field is a pointer, hence optional. -/
structure PacketEthernet where
  SrcMAC : Option String := none
  DstMAC : Option String := none
  EtherType : Option Nat := none
  PCP : Option Nat := none
  VlanID : Option Nat := none
  deriving DecidableEq, Repr

/-- The Go struct `PacketIP`. -/
structure PacketIP where
  SrcIP : Option String := none
  DstIP : Option String := none
  Protocol : Option Nat := none
  TOS : Option Nat := none
  TTL : Option Nat := none
  deriving DecidableEq, Repr

/-- The Go struct `PacketTransport`. -/
structure PacketTransport where
  SrcPort : Option Nat := none
  DstPort : Option Nat := none
  deriving DecidableEq, Repr

/-- The Go struct `Packet`; `new(Packet)` is the structure with every default. -/
structure Packet where
  PacketType : String := ""
  Ethernet : Option PacketEthernet := none
  IP : Option PacketIP := none
  Transport : Option PacketTransport := none
  deriving DecidableEq, Repr

/-! ## dissector/dissector.go -/

/-- The values of `gopacket.LayerType` the dissector can meet: `Zero` is
`gopacket.LayerTypeZero`, the next six are the layers the switch of `DissectPacket` names,
`Payload` is `gopacket.LayerTypePayload` (the seventh decoder put in the container), and
`other n` is any other registered layer type (ARP, ICMPv4, ...), which can only come back as
the next layer type. -/
inductive LayerType where
  | Zero
  | Ethernet
  | Dot1Q
  | IPv4
  | IPv6
  | TCP
  | UDP
  | Payload
  | other (id : Nat)
  deriving DecidableEq, Repr

/-- The fields of `layers.Ethernet` that `DissectPacket` reads. -/
structure Ethernet where
  SrcMAC : List Nat := []
  DstMAC : List Nat := []
  EthernetType : Nat := 0
  deriving DecidableEq, Repr

/-- The fields of `layers.Dot1Q` that `DissectPacket` reads. -/
structure Dot1Q where
  Priority : Nat := 0
  VLANIdentifier : Nat := 0
  deriving DecidableEq, Repr

/-- The fields of `layers.IPv4` that `DissectPacket` reads. -/
structure IPv4 where
  SrcIP : List Nat := []
  DstIP : List Nat := []
  Protocol : Nat := 0
  TOS : Nat := 0
  TTL : Nat := 0
  deriving DecidableEq, Repr

/-- The fields of `layers.IPv6` that `DissectPacket` reads. -/
structure IPv6 where
  SrcIP : List Nat := []
  DstIP : List Nat := []
  NextHeader : Nat := 0
  TrafficClass : Nat := 0
  HopLimit : Nat := 0
  deriving DecidableEq, Repr

/-- The fields of `layers.TCP` that `DissectPacket` reads. -/
structure TCP where
  SrcPort : Nat := 0
  DstPort : Nat := 0
  deriving DecidableEq, Repr

/-- The fields of `layers.UDP` that `DissectPacket` reads. -/
structure UDP where
  SrcPort : Nat := 0
  DstPort : Nat := 0
  deriving DecidableEq, Repr

/-- Everything the call `decoder(data, &decoded)` leaves behind: the list `decoded`, the
returned next layer type `lt`, the returned error, and the six layer variables the decoders
of the container have filled.  The gopacket layers decoder is an external library; its
output is a parameter of the embedding. -/
structure Decoding where
  decoded : List LayerType := []
  lt : LayerType := LayerType.Zero
  err : Option String := none
  eth : Ethernet := {}
  vlan : Dot1Q := {}
  ip4 : IPv4 := {}
  ip6 : IPv6 := {}
  tcp : TCP := {}
  udp : UDP := {}
  deriving DecidableEq, Repr

/-- The two `String()` methods `DissectPacket` calls (`net.HardwareAddr.String` and
`net.IP.String`), standard-library code taken as parameters. -/
structure Stringers where
  hw : List Nat → String
  ip : List Nat → String

/-- The two errors `DissectPacket` builds with `fmt.Errorf`. -/
inductive DissectError where
  | couldNotDecode (cause : String)
  | unknownLayerType (lt : LayerType)
  deriving DecidableEq, Repr

/-- The value of `packet.Ethernet` after `if packet.Ethernet == nil { ... = new(...) }`. -/
def ethOrNew (p : Packet) : PacketEthernet := p.Ethernet.getD {}

/-- The value of `packet.IP` after the nil check. -/
def ipOrNew (p : Packet) : PacketIP := p.IP.getD {}

/-- The value of `packet.Transport` after the nil check. -/
def transportOrNew (p : Packet) : PacketTransport := p.Transport.getD {}

/-- One iteration of `for _, typ := range decoded { switch typ { ... } }`. -/
def dissectStep (s : Stringers) (d : Decoding) (packet : Packet) (typ : LayerType) : Packet :=
  match typ with
  | LayerType.Ethernet =>
      { packet with Ethernet := some { ethOrNew packet with
          SrcMAC := some (s.hw d.eth.SrcMAC)
          DstMAC := some (s.hw d.eth.DstMAC)
          EtherType := some (d.eth.EthernetType % 65536) } }
  | LayerType.Dot1Q =>
      { packet with Ethernet := some { ethOrNew packet with
          VlanID := some (d.vlan.VLANIdentifier % 65536)
          PCP := some (d.vlan.Priority % 256) } }
  | LayerType.IPv4 =>
      { packet with IP := some { ipOrNew packet with
          SrcIP := some (s.ip d.ip4.SrcIP)
          DstIP := some (s.ip d.ip4.DstIP)
          Protocol := some (d.ip4.Protocol % 65536)
          TOS := some (d.ip4.TOS % 256)
          TTL := some (d.ip4.TTL % 256) } }
  | LayerType.IPv6 =>
      { packet with IP := some { ipOrNew packet with
          SrcIP := some (s.ip d.ip6.SrcIP)
          DstIP := some (s.ip d.ip6.DstIP)
          Protocol := some (d.ip6.NextHeader % 65536)
          TOS := some (d.ip6.TrafficClass % 256)
          TTL := some (d.ip6.HopLimit % 256) } }
  | LayerType.TCP =>
      { packet with Transport := some { transportOrNew packet with
          SrcPort := some (d.tcp.SrcPort % 65536)
          DstPort := some (d.tcp.DstPort % 65536) } }
  | LayerType.UDP =>
      { packet with Transport := some { transportOrNew packet with
          SrcPort := some (d.udp.SrcPort % 65536)
          DstPort := some (d.udp.DstPort % 65536) } }
  | _ => packet

/-- The `for ... range decoded` loop, started from `new(Packet)`. -/
def dissectLayers (s : Stringers) (d : Decoding) : Packet :=
  d.decoded.foldl (dissectStep s d) {}

/-- The final `if / else if` chain that sets `packet.PacketType`. -/
def setPacketType (packet : Packet) : Packet :=
  if packet.Transport.isSome then { packet with PacketType := "Transport" }
  else if packet.IP.isSome then { packet with PacketType := "IP" }
  else if packet.Ethernet.isSome then { packet with PacketType := "Ethernet" }
  else { packet with PacketType := "Unknown" }

/-- The error `DissectPacket` returns: the decoder's error wrapped, then overwritten when
the next layer type is not `LayerTypeZero`. -/
def dissectErr (d : Decoding) : Option DissectError :=
  let err := match d.err with
    | some e => some (DissectError.couldNotDecode e)
    | none => none
  if d.lt ≠ LayerType.Zero then some (DissectError.unknownLayerType d.lt) else err

/-- `BasicDissector.DissectPacket`: the pair `(packet, err)` it returns, the layers decoder
being the parameter `decoder`. -/
def DissectPacket (s : Stringers) (decoder : List Nat → Decoding) (data : List Nat) :
    Option Packet × Option DissectError :=
  let d := decoder data
  (some (setPacketType (dissectLayers s d)), dissectErr d)

/-! ## github.com/mdlayher/netlink: attributes

The netlink library is an external dependency of the repository and is not part of its
sources.  The definitions of this section model it from the description the specification
gives of the attribute decoder (a type/length/value stream, decoded lazily, one terminal
error for the whole buffer, accessors that fail on a length mismatch) and from the wire
format of netlink attributes: a 4-byte header (16-bit length including the header, 16-bit
type, both in native little-endian order), the value, and zero padding up to a multiple of
4 bytes. -/

/-- The errors of the attribute layer and of `dropmon.go`: `invalidAttribute` is the
library's "length too short or too large", `notUint bits typ len` is the accessor error
"attribute typ is not a uintN; length: len", `tooLarge` is the encoder's refusal of a value
that does not fit a 16-bit length, `wrapped ctx e` is `fmt.Errorf(ctx + ": %v", e)`,
`messageIsNil` is `fmt.Errorf("Message is NIL")` and `familyNotAvailable` is the error of
`Init` when the kernel does not expose the NET_DM family. -/
inductive NlError where
  | invalidAttribute
  | notUint (bits typ len : Nat)
  | tooLarge
  | wrapped (ctx : String) (e : NlError)
  | messageIsNil
  | familyNotAvailable
  deriving DecidableEq, Repr

/-- Modelled from the spec: the library constant for the size of an attribute header. -/
def nlaHeaderLen : Nat := 4

/-- Modelled from the spec: the library's rounding of a length up to a multiple of 4. -/
def nlaAlign (len : Nat) : Nat := (len + 3) / 4 * 4

/-- Modelled from the spec: the unsigned integer a byte slice holds in little-endian order
(the library's `nlenc.Uint16`, `Uint32` and `Uint64` on slices of 2, 4 and 8 bytes). -/
def leUint : List Nat → Nat
  | [] => 0
  | b :: bs => b + 256 * leUint bs

/-- Modelled from the spec: the `n` bytes that hold `v` in little-endian order (the
library's `nlenc.PutUint16` and companions). -/
def putUint : Nat → Nat → List Nat
  | 0, _ => []
  | n + 1, v => v % 256 :: putUint n (v / 256)

/-- Modelled from the spec: the library's `nlenc.String`, which drops every trailing NUL
byte. -/
def trimNul (b : List Nat) : List Nat := (b.reverse.dropWhile (fun x => x == 0)).reverse

/-- A Go `string` holding the bytes `b`, as a Lean string with one character per byte. -/
def goString (b : List Nat) : String := String.mk (b.map Char.ofNat)

/-- Modelled from the spec: the library's `netlink.Attribute`; `Typ` is its field `Type`. -/
structure Attribute where
  Length : Nat := 0
  Typ : Nat := 0
  Data : List Nat := []
  deriving DecidableEq, Repr

/-- Modelled from the spec: the library's `Attribute.unmarshal`, which reads one attribute
from the front of `b` and refuses a buffer shorter than a header, a length beyond the
buffer and a non-zero length shorter than a header. -/
def Attribute.unmarshal (b : List Nat) : Except NlError Attribute :=
  if b.length < nlaHeaderLen then Except.error NlError.invalidAttribute
  else
    let len := leUint (b.take 2)
    let typ := leUint ((b.drop 2).take 2)
    if len > b.length then Except.error NlError.invalidAttribute
    else if len = 0 then Except.ok { Length := len, Typ := typ, Data := [] }
    else if len < nlaHeaderLen then Except.error NlError.invalidAttribute
    else Except.ok { Length := len, Typ := typ, Data := (b.take len).drop nlaHeaderLen }

/-- Modelled from the spec: the library's `Attribute.marshal` after `MarshalAttributes` has
inferred a zero `Length` as header plus value: header, value, padding. -/
def Attribute.marshal (a : Attribute) : Except NlError (List Nat) :=
  let len := if a.Length = 0 then (nlaHeaderLen + a.Data.length) % 65536 else a.Length
  if len < nlaHeaderLen then Except.error NlError.invalidAttribute
  else Except.ok (putUint 2 len ++ putUint 2 a.Typ ++ a.Data
    ++ List.replicate (nlaAlign a.Data.length - a.Data.length) 0)

/-- Modelled from the spec: the library's `MarshalAttributes`, the concatenation of the
marshalled attributes, or the first error. -/
def MarshalAttributes : List Attribute → Except NlError (List Nat)
  | [] => Except.ok []
  | a :: rest =>
    match a.marshal with
    | Except.error e => Except.error e
    | Except.ok b =>
      match MarshalAttributes rest with
      | Except.error e => Except.error e
      | Except.ok bs => Except.ok (b ++ bs)

/-- Modelled from the spec: the library's `AttributeEncoder`, the attributes added so far
and the first error met. -/
structure AttributeEncoder where
  attrs : List Attribute := []
  err : Option NlError := none
  deriving DecidableEq, Repr

/-- Modelled from the spec: the library's `NewAttributeEncoder`. -/
def NewAttributeEncoder : AttributeEncoder := {}

/-- Modelled from the spec: the library's `AttributeEncoder.Bytes`, which appends an
attribute of type `typ` holding `b`. -/
def AttributeEncoder.Bytes (ae : AttributeEncoder) (typ : Nat) (b : List Nat) :
    AttributeEncoder :=
  if ae.err.isSome then ae
  else if b.length > 65535 - nlaHeaderLen then { ae with err := some NlError.tooLarge }
  else { ae with attrs := ae.attrs ++ [{ Typ := typ % 65536, Data := b }] }

/-- Modelled from the spec: the library's `AttributeEncoder.Encode`. -/
def AttributeEncoder.Encode (ae : AttributeEncoder) : Except NlError (List Nat) :=
  match ae.err with
  | some e => Except.error e
  | none => MarshalAttributes ae.attrs

/-- Modelled from the spec: the library's `AttributeDecoder`: the current attribute `a`,
the input `b`, the index `i` of the next attribute, the attribute count `length` and the
first error met. -/
structure AttributeDecoder where
  a : Attribute := {}
  b : List Nat := []
  i : Nat := 0
  length : Nat := 0
  err : Option NlError := none
  deriving DecidableEq, Repr

/-- Modelled from the spec: the scan `NewAttributeDecoder` makes over the whole buffer to
count the attributes; it fails when fewer than a header's worth of bytes is left at the
start of an attribute (a truncated length prefix).  `fuel` bounds the iterations; every
iteration advances `i` by at least 4. -/
def availableLoop (b : List Nat) : Nat → Nat → Nat → Except NlError Nat
  | 0, _, count => Except.ok count
  | fuel + 1, i, count =>
    if i ≥ b.length then Except.ok count
    else if b.length - i < nlaHeaderLen then Except.error NlError.invalidAttribute
    else
      let l := leUint ((b.drop i).take 2)
      let count := if l ≠ 0 then count + 1 else count
      let l := if l < nlaHeaderLen then nlaHeaderLen else l
      availableLoop b fuel (i + nlaAlign l) count

/-- Modelled from the spec: the library's `NewAttributeDecoder`. -/
def NewAttributeDecoder (b : List Nat) : Except NlError AttributeDecoder :=
  match availableLoop b (b.length + 1) 0 0 with
  | Except.error e => Except.error e
  | Except.ok n => Except.ok { b := b, length := n }

/-- Modelled from the spec: the library's `AttributeDecoder.Next`: false once an error is
recorded or the input is used up; otherwise the next attribute is unmarshalled (a failure
is recorded and ends the iteration) and the index advances past it and its padding. -/
def AttributeDecoder.Next (ad : AttributeDecoder) : Bool × AttributeDecoder :=
  if ad.err.isSome then (false, ad)
  else if ad.i ≥ ad.b.length then (false, ad)
  else
    match Attribute.unmarshal (ad.b.drop ad.i) with
    | Except.error e => (false, { ad with err := some e })
    | Except.ok a =>
      if a.Length < nlaHeaderLen then (true, { ad with a := a, i := ad.i + nlaHeaderLen })
      else (true, { ad with a := a, i := ad.i + nlaAlign a.Length })

/-- Modelled from the spec: the library's `AttributeDecoder.Type`, the id of the current
attribute with the two flag bits at the top of the 16-bit type field masked off (nested,
bit 15, and network byte order, bit 14): `a.Type & 0x3fff` (`Type` is reserved in Lean). -/
def AttributeDecoder.Typ (ad : AttributeDecoder) : Nat := ad.a.Typ % 16384

/-- Modelled from the spec: the library's `AttributeDecoder.Err`. -/
def AttributeDecoder.Err (ad : AttributeDecoder) : Option NlError := ad.err

/-- Modelled from the spec: the library's `AttributeDecoder.Bytes`, a copy of the raw
value. -/
def AttributeDecoder.Bytes (ad : AttributeDecoder) : List Nat := ad.a.Data

/-- Modelled from the spec: the library's `AttributeDecoder.String`. -/
def AttributeDecoder.String (ad : AttributeDecoder) : String :=
  if ad.err.isSome then "" else goString (trimNul ad.a.Data)

/-- Modelled from the spec: the library's unsigned accessors `Uint16`, `Uint32` and
`Uint64` (`bits` = 16, 32, 64): the value when the raw value has exactly `bits / 8` bytes,
otherwise 0 and a recorded length-mismatch error. -/
def AttributeDecoder.Uint (bits : Nat) (ad : AttributeDecoder) : Nat × AttributeDecoder :=
  if ad.err.isSome then (0, ad)
  else if ad.a.Data.length ≠ bits / 8 then
    (0, { ad with err := some (NlError.notUint bits ad.Typ ad.a.Data.length) })
  else (leUint ad.a.Data, ad)

/-- Modelled from the spec: the library's `AttributeDecoder.Do`, which hands the raw value
to `fn` and records the error `fn` returns; `fn` threads the state it updates. -/
def AttributeDecoder.Do {σ : Type} (ad : AttributeDecoder)
    (fn : σ → List Nat → σ × Option NlError) (st : σ) : σ × AttributeDecoder :=
  if ad.err.isSome then (st, ad)
  else
    match fn st ad.a.Data with
    | (st1, some e) => (st1, { ad with err := some e })
    | (st1, none) => (st1, ad)

/-- The Go loop `for ad.Next() { body }` over a state `σ`.  `fuel` bounds the iterations;
`forNext_fuel` shows that `ad.b.length + 1` is always enough. -/
def forNext {σ : Type} (body : σ → AttributeDecoder → σ × AttributeDecoder) :
    Nat → σ → AttributeDecoder → σ × AttributeDecoder
  | 0, st, ad => (st, ad)
  | fuel + 1, st, ad =>
    match ad.Next with
    | (false, ad1) => (st, ad1)
    | (true, ad1) =>
      match body st ad1 with
      | (st2, ad2) => forNext body fuel st2 ad2

/-! ## dropmon/dropmon.go -/

def NET_DM_CMD_UNSPEC : Nat := 0
def NET_DM_CMD_ALERT : Nat := 1
def NET_DM_CMD_CONFIG : Nat := 2
def NET_DM_CMD_START : Nat := 3
def NET_DM_CMD_STOP : Nat := 4
def NET_DM_CMD_PACKET_ALERT : Nat := 5

def NET_DM_ATTR_UNSPEC : Nat := 0
def NET_DM_ATTR_ALERT_MODE : Nat := 1
def NET_DM_ATTR_PC : Nat := 2
def NET_DM_ATTR_SYMBOL : Nat := 3
def NET_DM_ATTR_IN_PORT : Nat := 4
def NET_DM_ATTR_TIMESTAMP : Nat := 5
def NET_DM_ATTR_PROTO : Nat := 6
def NET_DM_ATTR_PAYLOAD : Nat := 7
def NET_DM_ATTR_PAD : Nat := 8
def NET_DM_ATTR_TRUNC_LEN : Nat := 9
def NET_DM_ATTR_ORIG_LEN : Nat := 10
def NET_DM_ATTR_QUEUE_LEN : Nat := 11
def NET_DM_ATTR_STATS : Nat := 12
def NET_DM_ATTR_HW_STATS : Nat := 13
def NET_DM_ATTR_ORIGIN : Nat := 14
def NET_DM_ATTR_HW_TRAP_GROUP_NAME : Nat := 15
def NET_DM_ATTR_HW_TRAP_NAME : Nat := 16
def NET_DM_ATTR_HW_ENTRIES : Nat := 17
def NET_DM_ATTR_HW_ENTRY : Nat := 18
def NET_DM_ATTR_HW_TRAP_COUNT : Nat := 19
def NET_DM_ATTR_SW_DROPS : Nat := 20
def NET_DM_ATTR_HW_DROPS : Nat := 21
def NET_DM_ATTR_MAX : Nat := 22

def NET_DM_ATTR_PORT_NETDEV_IFINDEX : Nat := 0
def NET_DM_ATTR_PORT_NETDEV_NAME : Nat := 1

def NET_DM_ORIGIN_SW : Nat := 0
def NET_DM_ORIGIN_HW : Nat := 1

/-- A Go `time.Time` as Unix seconds and nanoseconds within the second. -/
structure Time where
  sec : Int
  nsec : Int
  deriving DecidableEq, Repr

/-- The zero value `time.Time{}`: 1 January of year 1, 00:00:00 UTC. -/
def Time.zero : Time := ⟨-62135596800, 0⟩

/-- The Go conversion `int64(x)` of an unsigned 64-bit value. -/
def int64 (x : Nat) : Int :=
  if x % 2 ^ 64 < 2 ^ 63 then ((x % 2 ^ 64 : Nat) : Int) else ((x % 2 ^ 64 : Nat) : Int) - 2 ^ 64

/-- The standard library's `time.Unix(sec, nsec)`, which carries whole seconds out of
`nsec`; Go's integer division truncates toward zero. -/
def timeUnix (sec nsec : Int) : Time :=
  if nsec < 0 ∨ nsec ≥ 1000000000 then
    let n := Int.tdiv nsec 1000000000
    let sec := sec + n
    let nsec := nsec - n * 1000000000
    if nsec < 0 then ⟨sec - 1, nsec + 1000000000⟩ else ⟨sec, nsec⟩
  else ⟨sec, nsec⟩

/-- The Go struct `AlertMsgPort`. -/
structure AlertMsgPort where
  InPortIfIndex : Nat := 0
  InPortName : String := ""
  deriving DecidableEq, Repr

/-- The Go struct `AlertMsgPacket`. -/
structure AlertMsgPacket where
  Length : Nat := 0
  OrigLength : Nat := 0
  Protocol : Nat := 0
  Payload : List Nat := []
  deriving DecidableEq, Repr

/-- The Go struct `AlertMsg`; `new(AlertMsg)` is the structure with every default. -/
structure AlertMsg where
  Timestamp : Time := Time.zero
  Origin : String := ""
  Trap : String := ""
  Group : String := ""
  Port : AlertMsgPort := {}
  Packet : AlertMsgPacket := {}
  deriving DecidableEq, Repr

/-- The body of the loop of `AlertMsgPort.decode`: the switch on `ad.Type()`. -/
def AlertMsgPort.decodeBody (p : AlertMsgPort) (ad : AttributeDecoder) :
    AlertMsgPort × AttributeDecoder :=
  if ad.Typ = NET_DM_ATTR_PORT_NETDEV_IFINDEX then
    let (v, ad1) := ad.Uint 32
    ({ p with InPortIfIndex := v }, ad1)
  else if ad.Typ = NET_DM_ATTR_PORT_NETDEV_NAME then
    ({ p with InPortName := ad.String }, ad)
  else (p, ad)

/-- `AlertMsgPort.decode`: the closure it returns, applied to the port it updates and to
the raw value `b`; the result is the updated port and the returned error. -/
def AlertMsgPort.decode (p : AlertMsgPort) (b : List Nat) : AlertMsgPort × Option NlError :=
  match NewAttributeDecoder b with
  | Except.error e =>
    (p, some (NlError.wrapped "failed to create nested attribute decoder" e))
  | Except.ok ad =>
    match forNext AlertMsgPort.decodeBody (b.length + 1) p ad with
    | (p1, ad1) => (p1, ad1.Err)

/-- `DropMon.parseOrigin`. -/
def parseOrigin (origin : Nat) : String :=
  if origin = NET_DM_ORIGIN_SW then "software"
  else if origin = NET_DM_ORIGIN_HW then "hardware"
  else "unknown"

/-- `DropMon.parseTime`. -/
def parseTime (unix_time : Nat) : Time := timeUnix 0 (int64 unix_time)

/-- The body of the loop of `decodeAlertMessage`: the id with its top bit cleared
(`typ &^= (1 << 15)` on a 16-bit value) and the switch on it. -/
def decodeBody (alertMsg : AlertMsg) (ad : AttributeDecoder) : AlertMsg × AttributeDecoder :=
  let typ := ad.Typ % 65536 % 32768
  if typ = NET_DM_ATTR_HW_TRAP_GROUP_NAME then ({ alertMsg with Group := ad.String }, ad)
  else if typ = NET_DM_ATTR_HW_TRAP_NAME then ({ alertMsg with Trap := ad.String }, ad)
  else if typ = NET_DM_ATTR_ORIGIN then
    let (v, ad1) := ad.Uint 16
    ({ alertMsg with Origin := parseOrigin v }, ad1)
  else if typ = NET_DM_ATTR_IN_PORT then
    let (p, ad1) := ad.Do AlertMsgPort.decode alertMsg.Port
    ({ alertMsg with Port := p }, ad1)
  else if typ = NET_DM_ATTR_TIMESTAMP then
    let (v, ad1) := ad.Uint 64
    ({ alertMsg with Timestamp := parseTime v }, ad1)
  else if typ = NET_DM_ATTR_PROTO then
    let (v, ad1) := ad.Uint 16
    ({ alertMsg with Packet := { alertMsg.Packet with Protocol := v } }, ad1)
  else if typ = NET_DM_ATTR_ORIG_LEN then
    let (v, ad1) := ad.Uint 32
    ({ alertMsg with Packet := { alertMsg.Packet with OrigLength := v } }, ad1)
  else if typ = NET_DM_ATTR_PAYLOAD then
    let payload := ad.Bytes
    ({ alertMsg with Packet := { alertMsg.Packet with
        Length := payload.length % 4294967296, Payload := payload } }, ad)
  else (alertMsg, ad)

/-- The Go struct `genetlink.Header`, the two fields the source sets. -/
structure Header where
  Command : Nat := 0
  Version : Nat := 0
  deriving DecidableEq, Repr

/-- The Go struct `genetlink.Message`. -/
structure Message where
  Header : Header := {}
  Data : List Nat := []
  deriving DecidableEq, Repr

/-- `DropMon.decodeAlertMessage`: the pair `(alertMsg, err)` it returns; `msg` is `none`
for a nil pointer. -/
def decodeAlertMessage (msg : Option Message) : Option AlertMsg × Option NlError :=
  match msg with
  | none => (none, some NlError.messageIsNil)
  | some msg =>
    match NewAttributeDecoder msg.Data with
    | Except.error e => (none, some (NlError.wrapped "failed to create attribute decoder" e))
    | Except.ok ad =>
      match forNext decodeBody (msg.Data.length + 1) {} ad with
      | (alertMsg, ad1) =>
        match ad1.Err with
        | some e => (none, some (NlError.wrapped "failed to decode attributes" e))
        | none => (some alertMsg, none)

/-- The request `req` that `EnableDropMonitor` builds and hands to `dm.conn.Execute`, or the
error of `encoder.Encode()`; `version` is `dm.family.Version`. -/
def EnableDropMonitor.req (version : Nat) (monitorSW monitorHW : Bool) :
    Except NlError Message :=
  let encoder := NewAttributeEncoder
  let encoder := if monitorSW then encoder.Bytes NET_DM_ATTR_SW_DROPS [] else encoder
  let encoder := if monitorHW then encoder.Bytes NET_DM_ATTR_HW_DROPS [] else encoder
  match encoder.Encode with
  | Except.error e => Except.error e
  | Except.ok data =>
    Except.ok { Header := { Command := NET_DM_CMD_START, Version := version }, Data := data }

/-- `DropMon.EnableDropMonitor`: the error it returns; `execute` is `dm.conn.Execute` with
the family id and the flags `Request | Acknowledge`. -/
def EnableDropMonitor (execute : Message → Option NlError) (version : Nat)
    (monitorSW monitorHW : Bool) : Option NlError :=
  match EnableDropMonitor.req version monitorSW monitorHW with
  | Except.error e => some (NlError.wrapped "Failed to encode message attributes" e)
  | Except.ok req =>
    match execute req with
    | some e => some (NlError.wrapped "failed to execute" e)
    | none => none

/-- The request `req` that `DisableDropMonitor` builds and hands to `dm.conn.Execute`, or
the error of `encoder.Encode()`. -/
def DisableDropMonitor.req (version : Nat) (monitorSW monitorHW : Bool) :
    Except NlError Message :=
  let encoder := NewAttributeEncoder
  let encoder := if monitorSW then encoder.Bytes NET_DM_ATTR_SW_DROPS [] else encoder
  let encoder := if monitorHW then encoder.Bytes NET_DM_ATTR_HW_DROPS [] else encoder
  match encoder.Encode with
  | Except.error e => Except.error e
  | Except.ok data =>
    Except.ok { Header := { Command := NET_DM_CMD_STOP, Version := version }, Data := data }

/-- `DropMon.DisableDropMonitor`: the error it returns. -/
def DisableDropMonitor (execute : Message → Option NlError) (version : Nat)
    (monitorSW monitorHW : Bool) : Option NlError :=
  match DisableDropMonitor.req version monitorSW monitorHW with
  | Except.error e => some (NlError.wrapped "Failed to encode message attributes" e)
  | Except.ok req =>
    match execute req with
    | some e => some (NlError.wrapped "failed to execute" e)
    | none => none

/-- The attributes a buffer holds, in order, as the attribute decoder yields them: the loop
`for ad.Next()` collecting the current attribute.  Used to read back the data of a request. -/
def attributesOf (b : List Nat) : Except NlError (List Attribute) :=
  match NewAttributeDecoder b with
  | Except.error e => Except.error e
  | Except.ok ad =>
    match forNext (fun (acc : List Attribute) ad1 => (acc ++ [ad1.a], ad1)) (b.length + 1) [] ad with
    | (acc, ad1) =>
      match ad1.Err with
      | some e => Except.error e
      | none => Except.ok acc

/-- The run-time panics of the Go code embedded here. -/
inductive Fault where
  | nilPointerDereference
  | closeOfClosedChannel
  deriving DecidableEq, Repr

/-- The state of a Go channel of type `chan struct` that is not nil. -/
inductive Chan where
  | isOpen
  | isClosed
  deriving DecidableEq, Repr

/-- The state of a `genetlink.Conn` behind a non-nil pointer. -/
structure Conn where
  closed : Bool := false
  deriving DecidableEq, Repr

/-- The two fields of `genetlink.Family` the source reads. -/
structure Family where
  ID : Nat := 0
  Version : Nat := 0
  deriving DecidableEq, Repr

/-- The Go struct `DropMon`; a nil pointer or nil channel is `none`. -/
structure DropMon where
  conn : Option Conn := none
  family : Option Family := none
  stopped : Option Chan := none
  deriving DecidableEq, Repr

/-- `NewDropMon`: `&DropMon` with every field zero. -/
def NewDropMon : DropMon := {}

/-- `DropMon.Init`: `dial` is the result of `genetlink.Dial(nil)`, `getFamily` the result of
`dm.conn.GetFamily(NET_DM_FAMILY_NAME)` and `isNotExist` is `netlink.IsNotExist`. -/
def DropMon.Init (dial : Except NlError Conn) (getFamily : Except NlError Family)
    (isNotExist : NlError → Bool) (dm : DropMon) : DropMon × Option NlError :=
  let dm := { dm with stopped := some Chan.isOpen }
  match dial with
  | Except.error e => ({ dm with conn := none }, some e)
  | Except.ok c =>
    let dm := { dm with conn := some c }
    match getFamily with
    | Except.error e =>
      if isNotExist e then (dm, some NlError.familyNotAvailable)
      else (dm, some e)
    | Except.ok family => ({ dm with family := some family }, none)

/-- The Go builtin `close(ch)` on a channel that is not nil: closing a closed channel
panics. -/
def closeChan (c : Chan) : Except Fault Chan :=
  match c with
  | Chan.isOpen => Except.ok Chan.isClosed
  | Chan.isClosed => Except.error Fault.closeOfClosedChannel

/-- The method `(*genetlink.Conn).Close`, which reads a field of its receiver and so panics
on a nil receiver; its returned error is discarded by the caller. -/
def connClose (c : Option Conn) : Except Fault (Option Conn) :=
  match c with
  | none => Except.error Fault.nilPointerDereference
  | some c => Except.ok (some { c with closed := true })

/-- `DropMon.Close`: the state it leaves, or the panic it raises. -/
def DropMon.Close (dm : DropMon) : Except Fault DropMon :=
  let afterStopped : Except Fault DropMon :=
    match dm.stopped with
    | some ch =>
      match closeChan ch with
      | Except.error f => Except.error f
      | Except.ok ch1 => Except.ok { dm with stopped := some ch1 }
    | none => Except.ok dm
  match afterStopped with
  | Except.error f => Except.error f
  | Except.ok dm1 =>
    match connClose dm1.conn with
    | Except.error f => Except.error f
    | Except.ok c => Except.ok { dm1 with conn := c }

/-- What the receive loop of `DropMon.Start` does that can be observed: a line printed with
`fmt.Printf`, or a value sent on the output channel `ch` (`none` for a nil pointer). -/
inductive StartEvent where
  | printed (e : NlError)
  | sent (alertMsg : Option AlertMsg)
  deriving DecidableEq, Repr

/-- The body of `for _, msg := range msgs` in `DropMon.Start`, for one message. -/
def Start.handle (msg : Message) : List StartEvent :=
  match decodeAlertMessage (some msg) with
  | (alertMsg, some err) => [StartEvent.printed err, StartEvent.sent alertMsg]
  | (alertMsg, none) => [StartEvent.sent alertMsg]

/-- The loop `for _, msg := range msgs` in `DropMon.Start` over one received batch. -/
def Start.deliver (msgs : List Message) : List StartEvent :=
  msgs.foldl (fun acc msg => acc ++ Start.handle msg) []

/-- The values the output channel carries after a batch, in order. -/
def sentValues : List StartEvent → List (Option AlertMsg)
  | [] => []
  | StartEvent.sent a :: rest => a :: sentValues rest
  | StartEvent.printed _ :: rest => sentValues rest

/-! ## dropwatch-ng.go -/

/-- The Go struct `exporter.WriteMsg` (`exporter/exporter.go`). -/
structure WriteMsg where
  AlertMsg : Option AlertMsg := none
  Packet : Option Packet := none
  deriving DecidableEq, Repr

/-- The branch `case alertMsg := <-alertCh` of `processAlertMessages` for one received
value: the panic of reading `alertMsg.Packet.Payload` through a nil pointer, or `none` when
the iteration ends at `continue`, or the message handed to `Write` of every exporter. -/
def processAlertMessage (s : Stringers) (decoder : List Nat → Decoding)
    (alertMsg : Option AlertMsg) : Except Fault (Option WriteMsg) :=
  match alertMsg with
  | none => Except.error Fault.nilPointerDereference
  | some a =>
    match DissectPacket s decoder a.Packet.Payload with
    | (none, _) => Except.ok none
    | (some packet, _) => Except.ok (some { AlertMsg := some a, Packet := some packet })

/-! ## Well-formed attribute sequences -/

/-- An attribute of type `typ` holding `data`, with the length field the wire format asks
for: header plus value. -/
def attr (typ : Nat) (data : List Nat) : Attribute :=
  { Length := nlaHeaderLen + data.length, Typ := typ, Data := data }

/-- A well-formed attribute: a 16-bit type and a length field that counts the header and the
value and fits 16 bits. -/
def Attribute.wellFormed (a : Attribute) : Prop :=
  a.Typ < 65536 ∧ a.Length = nlaHeaderLen + a.Data.length ∧ a.Length < 65536

/-- The wire bytes of one well-formed attribute: length, type, value, padding. -/
def Attribute.wire (a : Attribute) : List Nat :=
  putUint 2 a.Length ++ putUint 2 a.Typ ++ a.Data
    ++ List.replicate (nlaAlign a.Data.length - a.Data.length) 0

/-- The wire bytes of an attribute sequence. -/
def wireAttrs : List Attribute → List Nat
  | [] => []
  | a :: rest => a.wire ++ wireAttrs rest

/-- The loop `for ad.Next() ...` seen on the attribute sequence instead of on the bytes: `f`
is the loop body as a function of the state and the current attribute, returning the new
state and the error it records, if any; the first recorded error ends the loop. -/
def foldAttrs {σ : Type} (f : σ → Attribute → σ × Option NlError) :
    σ → List Attribute → σ × Option NlError
  | st, [] => (st, none)
  | st, a :: rest =>
    match f st a with
    | (st1, some e) => (st1, some e)
    | (st1, none) => foldAttrs f st1 rest

/-- The body of the loop of `decodeAlertMessage` as a function of the current attribute. -/
def decodeAttr (alertMsg : AlertMsg) (a : Attribute) : AlertMsg × Option NlError :=
  match decodeBody alertMsg { a := a } with
  | (m, ad) => (m, ad.err)

/-- The body of the loop of `AlertMsgPort.decode` as a function of the current attribute. -/
def decodePortAttr (p : AlertMsgPort) (a : Attribute) : AlertMsgPort × Option NlError :=
  match AlertMsgPort.decodeBody p { a := a } with
  | (p1, ad) => (p1, ad.err)

/-- The eight attribute ids the switch of `decodeAlertMessage` names. -/
def consumedIds : List Nat :=
  [NET_DM_ATTR_IN_PORT, NET_DM_ATTR_TIMESTAMP, NET_DM_ATTR_PROTO, NET_DM_ATTR_PAYLOAD,
   NET_DM_ATTR_ORIG_LEN, NET_DM_ATTR_ORIGIN, NET_DM_ATTR_HW_TRAP_GROUP_NAME,
   NET_DM_ATTR_HW_TRAP_NAME]

instance (a : Attribute) : Decidable a.wellFormed := by
  unfold Attribute.wellFormed
  infer_instance

/-- The value of the last payload attribute of a sequence (id 7 once the two flag bits are
masked off), empty when there is none. -/
def lastPayload (attrs : List Attribute) : List Nat :=
  attrs.foldl (fun acc a => if a.Typ % 16384 = NET_DM_ATTR_PAYLOAD then a.Data else acc) []

/-- A consumed attribute whose value the switch of `decodeAlertMessage` cannot take: a
16-bit field (origin, protocol) not of 2 bytes, a 32-bit field (original length) not of 4
bytes, a 64-bit field (timestamp) not of 8 bytes, or an ingress-port group on which
`AlertMsgPort.decode` returns an error.  The id is the one the switch sees, flag bits masked
off. -/
def Attribute.badValue (a : Attribute) : Prop :=
  ((a.Typ % 16384 = NET_DM_ATTR_ORIGIN ∨ a.Typ % 16384 = NET_DM_ATTR_PROTO) ∧
      a.Data.length ≠ 2) ∨
    (a.Typ % 16384 = NET_DM_ATTR_ORIG_LEN ∧ a.Data.length ≠ 4) ∨
    (a.Typ % 16384 = NET_DM_ATTR_TIMESTAMP ∧ a.Data.length ≠ 8) ∨
    (a.Typ % 16384 = NET_DM_ATTR_IN_PORT ∧ (AlertMsgPort.decode {} a.Data).2 ≠ none)

instance (a : Attribute) : Decidable a.badValue := by
  unfold Attribute.badValue
  infer_instance

/-- An attribute that may stand beside the origin and the ingress-port attribute of an
alert: well-formed, with a value the switch can take, and with an id that is neither the
origin nor the ingress port once the flag bits are masked off.  Trap and group names,
timestamp, protocol, original length, payload and every unknown id are of this kind. -/
def Attribute.other (a : Attribute) : Prop :=
  a.wellFormed ∧ ¬ a.badValue ∧ a.Typ % 16384 ≠ NET_DM_ATTR_ORIGIN ∧
    a.Typ % 16384 ≠ NET_DM_ATTR_IN_PORT

instance (a : Attribute) : Decidable a.other := by
  unfold Attribute.other
  infer_instance

/-- The origin attribute of an alert: id 14, the 16-bit value `o`. -/
def originAttr (o : Nat) : Attribute := attr NET_DM_ATTR_ORIGIN (putUint 2 o)

/-- The ingress-port attribute of an alert: id 4, with the nested flag (top bit) when
`nested` is true, holding the interface index `i` (nested id 0, 32 bits) and the name `s`
(nested id 1) followed by `k` terminating NUL bytes. -/
def inPortAttr (nested : Bool) (i : Nat) (s : List Nat) (k : Nat) : Attribute :=
  attr (if nested then 32768 + NET_DM_ATTR_IN_PORT else NET_DM_ATTR_IN_PORT)
    (wireAttrs [attr NET_DM_ATTR_PORT_NETDEV_IFINDEX (putUint 4 i),
      attr NET_DM_ATTR_PORT_NETDEV_NAME (s ++ List.replicate k 0)])

/-! ## Concrete inputs used by the examples -/

/-- Renderings that ignore the address: enough where only presence matters. -/
def plainStringers : Stringers := ⟨fun _ => "", fun _ => ""⟩

/-- An Ethernet frame carrying an ARP request: broadcast destination, source
00:11:22:33:44:55, ether-type 0x0806, then the 28 bytes of the ARP body. -/
def arpFrame : List Nat :=
  [255, 255, 255, 255, 255, 255, 0, 17, 34, 51, 68, 85, 8, 6,
   0, 1, 8, 0, 6, 4, 0, 1, 0, 17, 34, 51, 68, 85, 10, 0, 0, 1,
   0, 0, 0, 0, 0, 0, 10, 0, 0, 2]

/-- What the gopacket layers decoder leaves behind on `arpFrame`: Ethernet is decoded, no
decoder of the container handles ARP (registered as layer type 10), so ARP comes back as the
next layer type with a nil error. -/
def arpDecoder (_data : List Nat) : Decoding :=
  { decoded := [LayerType.Ethernet]
    lt := LayerType.other 10
    err := none
    eth := { SrcMAC := [0, 17, 34, 51, 68, 85], DstMAC := [255, 255, 255, 255, 255, 255],
             EthernetType := 2054 } }

/-- A message whose attribute data is a single stray byte: a truncated length prefix. -/
def truncatedMsg : Message := { Header := { Command := NET_DM_CMD_PACKET_ALERT }, Data := [1] }

/-- The bytes of the interface name "eth0". -/
def eth0 : List Nat := [101, 116, 104, 48]

/-- A drop monitor after a successful `Init`. -/
def readyDropMon : DropMon :=
  (DropMon.Init (Except.ok {}) (Except.ok { ID := 31, Version := 2 }) (fun _ => false)
    NewDropMon).1

/-- An alert whose data holds an original length of 1500 and two payload attributes, of 3
and of 2 bytes, the second with the network-byte-order flag in its id (0x4007). -/
def payloadMsg : Message :=
  { Header := { Command := NET_DM_CMD_PACKET_ALERT }
    Data := wireAttrs [attr NET_DM_ATTR_ORIG_LEN (putUint 4 1500),
      attr NET_DM_ATTR_PAYLOAD [1, 2, 3], attr (16384 + NET_DM_ATTR_PAYLOAD) [9, 9]] }

/-! ## exporter/exporter.go, stdout_exporter.go, pcap_exporter.go, telegraf_exporter.go -/

/-- The errors the exporters build with `fmt.Errorf`. -/
inductive ExportError where
  | writeMsgIsNil
  | alertMsgIsNil
  deriving DecidableEq, Repr

/-- The three implementations of the Go interface `Exporter`. -/
inductive ExporterKind where
  | Stdout
  | PCAP
  | Telegraf
  deriving DecidableEq, Repr

/-- An exporter as the router and its own processing loop see it.  `inMessages` is the
unbuffered channel of the Go struct (`none` while nil, that is, before `Start`); `senders`
holds the goroutines started by `Write` that stand at `ex.inMessages <- msg`, oldest first,
each with its message; `receiving` tells whether the processing loop is at its `select` and
can take a message (false while it is busy or blocked inside `processMsg`); `taken` lists
the messages the loop has received, in order. -/
structure Exporter where
  kind : ExporterKind
  inMessages : Option Chan := none
  senders : List WriteMsg := []
  receiving : Bool := true
  taken : List WriteMsg := []
  deriving DecidableEq, Repr

/-- The method `Write`, the same text in `StdoutExporter`, `PCAPExporter` and
`TelegrafExporter`: a nil message is refused; otherwise the statement `go func() ...`
starts a goroutine, which sends on `ex.inMessages` when the channel is not nil, and `Write`
returns nil at once.  The result is the exporter with the new goroutine and the returned
error; `msg` is `none` for a nil pointer. -/
def Exporter.Write (ex : Exporter) (msg : Option WriteMsg) : Exporter × Option ExportError :=
  match msg with
  | none => (ex, some ExportError.writeMsgIsNil)
  | some m =>
    if ex.inMessages.isSome then ({ ex with senders := ex.senders ++ [m] }, none)
    else (ex, none)

/-- The branch `case msg := <-ex.inMessages` of the processing loop of an exporter, paired
with the `k`-th waiting sender: possible when the loop is at its `select`, the channel is
open and that sender exists; the message passes from the goroutine to the loop. -/
def Exporter.receive (ex : Exporter) (k : Nat) : Option (WriteMsg × Exporter) :=
  if ex.receiving = true ∧ ex.inMessages = some Chan.isOpen then
    match ex.senders.get? k with
    | some m => some (m, { ex with senders := ex.senders.eraseIdx k, taken := ex.taken ++ [m] })
    | none => none
  else none

/-- The Go struct `TelegrafMsg`. -/
structure TelegrafMsg where
  DropType : String := ""
  DropReason : String := ""
  IngressPort : String := ""
  Severity : String := ""
  DeviceIP : String := ""
  Timestamp : String := ""
  Message : String := ""
  Packet : Option Packet := none
  deriving DecidableEq, Repr

/-- The Go struct `TelegrafExporterConfig`; the two durations are in nanoseconds. -/
structure TelegrafExporterConfig where
  DeviceIP : String := ""
  ConnAddr : String := ""
  ConnTimeout : Int := 0
  SendInterval : Int := 0
  deriving DecidableEq, Repr

/-- Modelled from the spec: the queue of the external go-datastructures library that
`TelegrafExporter` keeps in `sendQueue`, an unbounded first-in first-out list of items (the
argument of `queue.New` is only a capacity hint). -/
structure Queue (α : Type) where
  items : List α := []
  deriving DecidableEq, Repr

/-- Modelled from the spec: the library's `queue.New`. -/
def Queue.New {α : Type} (_hint : Nat) : Queue α := {}

/-- Modelled from the spec: the library's `Queue.Put`, which appends the item and, on a
queue that is never disposed, returns no error. -/
def Queue.Put {α : Type} (q : Queue α) (item : α) : Queue α :=
  { q with items := q.items ++ [item] }

/-- Modelled from the spec: the library's `Queue.TakeUntil`, which removes and returns the
items from the head for as long as `checker` accepts them. -/
def Queue.TakeUntil {α : Type} (q : Queue α) (checker : α → Bool) : List α × Queue α :=
  (q.items.takeWhile checker, { q with items := q.items.dropWhile checker })

/-- The fields of the Go struct `TelegrafExporter` that the processing loop uses. -/
structure TelegrafExporter where
  config : TelegrafExporterConfig := {}
  sendQueue : Queue TelegrafMsg := {}
  deriving DecidableEq, Repr

/-- The state `TelegrafExporter.Start` sets up for the loop: `ex.sendQueue = queue.New(100)`. -/
def TelegrafExporter.Start (cfg : TelegrafExporterConfig) : TelegrafExporter :=
  { config := cfg, sendQueue := Queue.New 100 }

/-- `TelegrafExporter.processMsg`: the pair `(tgMsg, err)` it returns. -/
def TelegrafExporter.processMsg (ex : TelegrafExporter) (msg : WriteMsg) :
    Option TelegrafMsg × Option ExportError :=
  match msg.AlertMsg with
  | none => (none, some ExportError.alertMsgIsNil)
  | some alertMsg =>
    let dropType :=
      if alertMsg.Group = "l2_drops" then "l2"
      else if alertMsg.Group = "l3_drops" then "l3"
      else "unknown"
    let sec := alertMsg.Timestamp.sec
    let ns := alertMsg.Timestamp.nsec
    (some { DropType := dropType
            DropReason := alertMsg.Trap
            IngressPort := alertMsg.Port.InPortName
            Severity := "Notice"
            DeviceIP := ex.config.DeviceIP
            Timestamp := toString sec ++ "." ++ toString ns
            Message := "fwdDrop"
            Packet := msg.Packet }, none)

/-- What the `select` of the loop of `TelegrafExporter.Start` can take: a message from
`ex.inMessages` (never nil, `Write` refuses nil) or a tick of `sendTicker`. -/
inductive TelegrafEvent where
  | message (msg : WriteMsg)
  | tick
  deriving DecidableEq, Repr

/-- What the loop does that can be observed: a line printed with `fmt.Printf`, or a batch
handed to the sender by `go ex.sendJSON(sendMessages)`. -/
inductive TelegrafAction where
  | printed (e : ExportError)
  | sendJSON (messages : List TelegrafMsg)
  deriving DecidableEq, Repr

/-- One iteration of the loop of `TelegrafExporter.Start` that takes the event `ev`. -/
def TelegrafExporter.step (ex : TelegrafExporter) (ev : TelegrafEvent) :
    TelegrafExporter × List TelegrafAction :=
  match ev with
  | TelegrafEvent.message msg =>
    match ex.processMsg msg with
    | (_, some err) => (ex, [TelegrafAction.printed err])
    | (none, none) => (ex, [])
    | (some tgMsg, none) => ({ ex with sendQueue := ex.sendQueue.Put tgMsg }, [])
  | TelegrafEvent.tick =>
    let all := fun (_ : TelegrafMsg) => true
    match ex.sendQueue.TakeUntil all with
    | (items, q) =>
      if items.length = 0 then ({ ex with sendQueue := q }, [])
      else ({ ex with sendQueue := q }, [TelegrafAction.sendJSON items])

/-- The loop over a sequence of events: the final state and everything done, in order. -/
def TelegrafExporter.run (ex : TelegrafExporter) :
    List TelegrafEvent → TelegrafExporter × List TelegrafAction
  | [] => (ex, [])
  | ev :: rest =>
    match ex.step ev with
    | (ex1, acts) =>
      match TelegrafExporter.run ex1 rest with
      | (ex2, acts2) => (ex2, acts ++ acts2)

/-- The batches handed to the sender among a list of actions, in order. -/
def batchesOf : List TelegrafAction → List (List TelegrafMsg)
  | [] => []
  | TelegrafAction.sendJSON b :: rest => b :: batchesOf rest
  | TelegrafAction.printed _ :: rest => batchesOf rest

/-- The records of the messages the loop accepts out of `msgs`, in arrival order: those on
which `processMsg` returns a record and no error. -/
def TelegrafExporter.accepted (ex : TelegrafExporter) (msgs : List WriteMsg) :
    List TelegrafMsg :=
  msgs.filterMap (fun msg =>
    match ex.processMsg msg with
    | (some tgMsg, none) => some tgMsg
    | _ => none)

/-! ## dropwatch-ng.go: routing -/

/-- The loop `for _, ex := range exporters` of `processAlertMessages`: `ex.Write(&msg)` on
every exporter in turn, the returned errors being discarded by the source; the result keeps
each exporter after the call together with what the call returned. -/
def routeMsg (exporters : List Exporter) (msg : WriteMsg) :
    List (Exporter × Option ExportError) :=
  exporters.map (fun ex => ex.Write (some msg))

/-- An assignment `packet.Ethernet.X = ...` of `DissectPacket`: it goes through the pointer
`packet.Ethernet` and panics when that pointer is nil. -/
def storeEthernet (packet : Packet) (f : PacketEthernet → PacketEthernet) :
    Except Fault Packet :=
  match packet.Ethernet with
  | none => Except.error Fault.nilPointerDereference
  | some e => Except.ok { packet with Ethernet := some (f e) }

/-- An assignment `packet.IP.X = ...` of `DissectPacket`, through the pointer `packet.IP`. -/
def storeIP (packet : Packet) (f : PacketIP → PacketIP) : Except Fault Packet :=
  match packet.IP with
  | none => Except.error Fault.nilPointerDereference
  | some i => Except.ok { packet with IP := some (f i) }

/-- An assignment `packet.Transport.X = ...` of `DissectPacket`, through the pointer
`packet.Transport`. -/
def storeTransport (packet : Packet) (f : PacketTransport → PacketTransport) :
    Except Fault Packet :=
  match packet.Transport with
  | none => Except.error Fault.nilPointerDereference
  | some t => Except.ok { packet with Transport := some (f t) }

/-- One iteration of the range loop of `DissectPacket`, statement by statement, with the
panics its pointer assignments can raise: the nil test that allocates the sub-record, then
one assignment through the pointer for every field. -/
def dissectStep.run (s : Stringers) (d : Decoding) (packet : Packet) (typ : LayerType) :
    Except Fault Packet :=
  match typ with
  | LayerType.Ethernet =>
    let packet := if packet.Ethernet.isNone then { packet with Ethernet := some {} } else packet
    (storeEthernet packet (fun e => { e with SrcMAC := some (s.hw d.eth.SrcMAC) })).bind
      fun packet =>
    (storeEthernet packet (fun e => { e with DstMAC := some (s.hw d.eth.DstMAC) })).bind
      fun packet =>
    storeEthernet packet (fun e => { e with EtherType := some (d.eth.EthernetType % 65536) })
  | LayerType.Dot1Q =>
    let packet := if packet.Ethernet.isNone then { packet with Ethernet := some {} } else packet
    (storeEthernet packet (fun e => { e with VlanID := some (d.vlan.VLANIdentifier % 65536) })).bind
      fun packet =>
    storeEthernet packet (fun e => { e with PCP := some (d.vlan.Priority % 256) })
  | LayerType.IPv4 =>
    let packet := if packet.IP.isNone then { packet with IP := some {} } else packet
    (storeIP packet (fun i => { i with SrcIP := some (s.ip d.ip4.SrcIP) })).bind fun packet =>
    (storeIP packet (fun i => { i with DstIP := some (s.ip d.ip4.DstIP) })).bind fun packet =>
    (storeIP packet (fun i => { i with Protocol := some (d.ip4.Protocol % 65536) })).bind
      fun packet =>
    (storeIP packet (fun i => { i with TOS := some (d.ip4.TOS % 256) })).bind fun packet =>
    storeIP packet (fun i => { i with TTL := some (d.ip4.TTL % 256) })
  | LayerType.IPv6 =>
    let packet := if packet.IP.isNone then { packet with IP := some {} } else packet
    (storeIP packet (fun i => { i with SrcIP := some (s.ip d.ip6.SrcIP) })).bind fun packet =>
    (storeIP packet (fun i => { i with DstIP := some (s.ip d.ip6.DstIP) })).bind fun packet =>
    (storeIP packet (fun i => { i with Protocol := some (d.ip6.NextHeader % 65536) })).bind
      fun packet =>
    (storeIP packet (fun i => { i with TOS := some (d.ip6.TrafficClass % 256) })).bind
      fun packet =>
    storeIP packet (fun i => { i with TTL := some (d.ip6.HopLimit % 256) })
  | LayerType.TCP =>
    let packet :=
      if packet.Transport.isNone then { packet with Transport := some {} } else packet
    (storeTransport packet (fun t => { t with SrcPort := some (d.tcp.SrcPort % 65536) })).bind
      fun packet =>
    storeTransport packet (fun t => { t with DstPort := some (d.tcp.DstPort % 65536) })
  | LayerType.UDP =>
    let packet :=
      if packet.Transport.isNone then { packet with Transport := some {} } else packet
    (storeTransport packet (fun t => { t with SrcPort := some (d.udp.SrcPort % 65536) })).bind
      fun packet =>
    storeTransport packet (fun t => { t with DstPort := some (d.udp.DstPort % 65536) })
  | _ => Except.ok packet

/-- The range loop of `DissectPacket` over `decoded`, stopping at the first panic. -/
def dissectLayers.run (s : Stringers) (d : Decoding) : Packet → List LayerType →
    Except Fault Packet
  | packet, [] => Except.ok packet
  | packet, typ :: rest =>
    match dissectStep.run s d packet typ with
    | Except.error f => Except.error f
    | Except.ok packet1 => dissectLayers.run s d packet1 rest

/-- `BasicDissector.DissectPacket` with its panics: the call of the layers decoder of the
external gopacket library either returns what `Decoding` records or panics, and a panic of
the library or of a pointer assignment ends the call; otherwise the pair `(packet, err)` is
returned. -/
def DissectPacket.run (s : Stringers) (decoder : List Nat → Except Fault Decoding)
    (data : List Nat) : Except Fault (Option Packet × Option DissectError) :=
  match decoder data with
  | Except.error f => Except.error f
  | Except.ok d =>
    match dissectLayers.run s d {} d.decoded with
    | Except.error f => Except.error f
    | Except.ok packet => Except.ok (some (setPacketType packet), dissectErr d)

/-- The branch `case alertMsg := <-alertCh` of `processAlertMessages` with its exporters: a
panic on a nil alert (the read of `alertMsg.Packet.Payload`) or inside `DissectPacket`,
`none` when the packet is nil and the iteration ends at `continue` before any `Write`, and
otherwise the result of `Write` on every exporter. -/
def processAlertMessages.handle (s : Stringers) (decoder : List Nat → Except Fault Decoding)
    (exporters : List Exporter) (alertMsg : Option AlertMsg) :
    Except Fault (Option (List (Exporter × Option ExportError))) :=
  match alertMsg with
  | none => Except.error Fault.nilPointerDereference
  | some a =>
    match DissectPacket.run s decoder a.Packet.Payload with
    | Except.error f => Except.error f
    | Except.ok (none, _) => Except.ok none
    | Except.ok (some packet, _) =>
      Except.ok (some (routeMsg exporters { AlertMsg := some a, Packet := some packet }))

/-! ## Concrete inputs for the exporters -/

/-- An alert with trap group `l2_drops`, and the message routed for it. -/
def l2Msg : WriteMsg :=
  { AlertMsg := some { Group := "l2_drops", Trap := "ingress_vlan_filter",
                       Timestamp := ⟨1, 500000000⟩ }
    Packet := some { PacketType := "Unknown" } }

/-- A started PCAP exporter whose loop is blocked, with two senders already waiting. -/
def blockedExporter : Exporter :=
  { kind := ExporterKind.PCAP, inMessages := some Chan.isOpen, senders := [l2Msg, l2Msg],
    receiving := false }

/-- A started telegraf exporter whose loop is at its `select`. -/
def idleExporter : Exporter :=
  { kind := ExporterKind.Telegraf, inMessages := some Chan.isOpen }

/-- What the gopacket layers decoder returns on a payload shorter than an Ethernet header:
nothing decoded and the error of the Ethernet layer. -/
def shortDecoder (_data : List Nat) : Except Fault Decoding :=
  Except.ok { decoded := [], lt := LayerType.Zero, err := some "Ethernet packet too small" }

/-- An alert whose payload has three bytes. -/
def shortAlert : AlertMsg :=
  { Origin := "software", Port := ⟨7, "eth0"⟩, Packet := { Length := 3, Payload := [1, 2, 3] } }

/-- A PCAP exporter whose `Start` failed before the channel was made. -/
def unstartedExporter : Exporter := { kind := ExporterKind.PCAP }

/-- The attributes a packet alert carries before its origin: trap group name `l2_drops` with
its terminating NUL, and a timestamp of one and a half seconds. -/
def scenarioPre : List Attribute :=
  [attr NET_DM_ATTR_HW_TRAP_GROUP_NAME [108, 50, 95, 100, 114, 111, 112, 115, 0],
   attr NET_DM_ATTR_TIMESTAMP (putUint 8 1500000000)]

/-- The attribute between origin and ingress port: protocol 0x0800. -/
def scenarioMid : List Attribute := [attr NET_DM_ATTR_PROTO (putUint 2 2048)]

/-- The attributes after the ingress port: original length 60, a payload of six bytes carried
with the network-byte-order flag in its id, and an attribute of unknown id 99. -/
def scenarioPost : List Attribute :=
  [attr NET_DM_ATTR_ORIG_LEN (putUint 4 60),
   attr (16384 + NET_DM_ATTR_PAYLOAD) [255, 255, 255, 255, 255, 255],
   attr 99 [1, 2, 3]]

/-! ## The dissector: which sub-records and fields the layer loop fills -/

theorem foldl_transport (s : Stringers) (d : Decoding) (l : List LayerType) (p : Packet) :
    (l.foldl (dissectStep s d) p).Transport.isSome = true ↔
      p.Transport.isSome = true ∨ LayerType.TCP ∈ l ∨ LayerType.UDP ∈ l := by
  induction l generalizing p with
  | nil => simp
  | cons t l ih =>
    rw [List.foldl_cons, ih]
    cases t <;> simp [dissectStep]

theorem foldl_ip (s : Stringers) (d : Decoding) (l : List LayerType) (p : Packet) :
    (l.foldl (dissectStep s d) p).IP.isSome = true ↔
      p.IP.isSome = true ∨ LayerType.IPv4 ∈ l ∨ LayerType.IPv6 ∈ l := by
  induction l generalizing p with
  | nil => simp
  | cons t l ih =>
    rw [List.foldl_cons, ih]
    cases t <;> simp [dissectStep]

theorem foldl_ethernet (s : Stringers) (d : Decoding) (l : List LayerType) (p : Packet) :
    (l.foldl (dissectStep s d) p).Ethernet.isSome = true ↔
      p.Ethernet.isSome = true ∨ LayerType.Ethernet ∈ l ∨ LayerType.Dot1Q ∈ l := by
  induction l generalizing p with
  | nil => simp
  | cons t l ih =>
    rw [List.foldl_cons, ih]
    cases t <;> simp [dissectStep]

/-- The three fields the Ethernet case writes are present after the loop exactly when they
were before it or the list holds `Ethernet`. -/
theorem foldl_eth_fields (s : Stringers) (d : Decoding) (l : List LayerType) (p : Packet) :
    (((l.foldl (dissectStep s d) p).Ethernet.bind PacketEthernet.SrcMAC).isSome = true ↔
      (p.Ethernet.bind PacketEthernet.SrcMAC).isSome = true ∨ LayerType.Ethernet ∈ l) ∧
    (((l.foldl (dissectStep s d) p).Ethernet.bind PacketEthernet.DstMAC).isSome = true ↔
      (p.Ethernet.bind PacketEthernet.DstMAC).isSome = true ∨ LayerType.Ethernet ∈ l) ∧
    (((l.foldl (dissectStep s d) p).Ethernet.bind PacketEthernet.EtherType).isSome = true ↔
      (p.Ethernet.bind PacketEthernet.EtherType).isSome = true ∨ LayerType.Ethernet ∈ l) := by
  induction l generalizing p with
  | nil => simp
  | cons t l ih =>
    rw [List.foldl_cons]
    obtain ⟨h1, h2, h3⟩ := ih (dissectStep s d p t)
    rw [h1, h2, h3]
    cases t <;> cases hp : p.Ethernet <;> simp [dissectStep, ethOrNew, hp]

/-- The two fields the Dot1Q case writes are present after the loop exactly when they were
before it or the list holds `Dot1Q`. -/
theorem foldl_vlan_fields (s : Stringers) (d : Decoding) (l : List LayerType) (p : Packet) :
    (((l.foldl (dissectStep s d) p).Ethernet.bind PacketEthernet.VlanID).isSome = true ↔
      (p.Ethernet.bind PacketEthernet.VlanID).isSome = true ∨ LayerType.Dot1Q ∈ l) ∧
    (((l.foldl (dissectStep s d) p).Ethernet.bind PacketEthernet.PCP).isSome = true ↔
      (p.Ethernet.bind PacketEthernet.PCP).isSome = true ∨ LayerType.Dot1Q ∈ l) := by
  induction l generalizing p with
  | nil => simp
  | cons t l ih =>
    rw [List.foldl_cons]
    obtain ⟨h1, h2⟩ := ih (dissectStep s d p t)
    rw [h1, h2]
    cases t <;> cases hp : p.Ethernet <;> simp [dissectStep, ethOrNew, hp]

/-- An IP sub-record the loop holds has all five fields, provided that was so before. -/
theorem foldl_ip_fields (s : Stringers) (d : Decoding) (l : List LayerType) (p : Packet)
    (hp : ∀ i, p.IP = some i → i.SrcIP.isSome = true ∧ i.DstIP.isSome = true ∧
      i.Protocol.isSome = true ∧ i.TOS.isSome = true ∧ i.TTL.isSome = true) :
    ∀ i, (l.foldl (dissectStep s d) p).IP = some i → i.SrcIP.isSome = true ∧
      i.DstIP.isSome = true ∧ i.Protocol.isSome = true ∧ i.TOS.isSome = true ∧
      i.TTL.isSome = true := by
  induction l generalizing p with
  | nil => simpa using hp
  | cons t l ih =>
    rw [List.foldl_cons]
    apply ih
    intro i hi
    cases t <;> simp only [dissectStep] at hi <;> first
      | exact hp i hi
      | (cases hi; simp)

/-- A Transport sub-record the loop holds has both ports, provided that was so before. -/
theorem foldl_transport_fields (s : Stringers) (d : Decoding) (l : List LayerType)
    (p : Packet)
    (hp : ∀ t, p.Transport = some t → t.SrcPort.isSome = true ∧ t.DstPort.isSome = true) :
    ∀ t, (l.foldl (dissectStep s d) p).Transport = some t →
      t.SrcPort.isSome = true ∧ t.DstPort.isSome = true := by
  induction l generalizing p with
  | nil => simpa using hp
  | cons t l ih =>
    rw [List.foldl_cons]
    apply ih
    intro i hi
    cases t <;> simp only [dissectStep] at hi <;> first
      | exact hp i hi
      | (cases hi; simp)

theorem setPacketType_fields (p : Packet) :
    (setPacketType p).Ethernet = p.Ethernet ∧ (setPacketType p).IP = p.IP ∧
      (setPacketType p).Transport = p.Transport := by
  unfold setPacketType
  split_ifs <;> simp

/-- C1. For every list of layer types the decoder reports as decoded, the packet
`DissectPacket` returns is present and its `PacketType` is "Transport" if the list holds TCP
or UDP, otherwise "IP" if it holds IPv4 or IPv6, otherwise "Ethernet" if it holds Ethernet or
Dot1Q, otherwise "Unknown"; for a decoder that reports an empty list, as on empty input, the
packet is the one of type "Unknown" without sub-records. -/
theorem DissectPacket_packetType (s : Stringers) (decoder : List Nat → Decoding)
    (data : List Nat) (d0 : Decoding) :
    (∃ p, (DissectPacket s decoder data).1 = some p ∧
      p.PacketType =
        (if LayerType.TCP ∈ (decoder data).decoded ∨ LayerType.UDP ∈ (decoder data).decoded
          then "Transport"
        else if LayerType.IPv4 ∈ (decoder data).decoded ∨
            LayerType.IPv6 ∈ (decoder data).decoded then "IP"
        else if LayerType.Ethernet ∈ (decoder data).decoded ∨
            LayerType.Dot1Q ∈ (decoder data).decoded then "Ethernet"
        else "Unknown")) ∧
      (DissectPacket s (fun _ => { d0 with decoded := [] }) data).1 =
        some { PacketType := "Unknown" } := by
  refine ⟨⟨_, rfl, ?_⟩, ?_⟩
  · have ht := foldl_transport s (decoder data) (decoder data).decoded {}
    have hi := foldl_ip s (decoder data) (decoder data).decoded {}
    have he := foldl_ethernet s (decoder data) (decoder data).decoded {}
    simp only [Option.isSome_none, Bool.false_eq_true, false_or] at ht hi he
    simp only [setPacketType, dissectLayers, ht, hi, he]
    split_ifs <;> rfl
  · simp [DissectPacket, setPacketType, dissectLayers]

/-- C10. For every list of decoded layer types, in the packet `DissectPacket` returns the
Ethernet sub-record is present exactly when Ethernet or Dot1Q was decoded, its source MAC,
destination MAC and ether-type are present exactly when Ethernet was decoded, its VLAN id
and priority are present exactly when Dot1Q was decoded, the IP sub-record is present (then
with all its fields) exactly when IPv4 or IPv6 was decoded, and the Transport sub-record is
present (then with both ports) exactly when TCP or UDP was decoded; a field of a layer that
was not decoded is absent, not zero. -/
theorem DissectPacket_subrecords (s : Stringers) (decoder : List Nat → Decoding)
    (data : List Nat) :
    ∃ p, (DissectPacket s decoder data).1 = some p ∧
      (p.Ethernet.isSome = true ↔ LayerType.Ethernet ∈ (decoder data).decoded ∨
        LayerType.Dot1Q ∈ (decoder data).decoded) ∧
      (∀ e, p.Ethernet = some e →
        (e.SrcMAC.isSome = true ↔ LayerType.Ethernet ∈ (decoder data).decoded) ∧
        (e.DstMAC.isSome = true ↔ LayerType.Ethernet ∈ (decoder data).decoded) ∧
        (e.EtherType.isSome = true ↔ LayerType.Ethernet ∈ (decoder data).decoded) ∧
        (e.VlanID.isSome = true ↔ LayerType.Dot1Q ∈ (decoder data).decoded) ∧
        (e.PCP.isSome = true ↔ LayerType.Dot1Q ∈ (decoder data).decoded)) ∧
      (p.IP.isSome = true ↔ LayerType.IPv4 ∈ (decoder data).decoded ∨
        LayerType.IPv6 ∈ (decoder data).decoded) ∧
      (∀ i, p.IP = some i → i.SrcIP.isSome = true ∧ i.DstIP.isSome = true ∧
        i.Protocol.isSome = true ∧ i.TOS.isSome = true ∧ i.TTL.isSome = true) ∧
      (p.Transport.isSome = true ↔ LayerType.TCP ∈ (decoder data).decoded ∨
        LayerType.UDP ∈ (decoder data).decoded) ∧
      (∀ t, p.Transport = some t → t.SrcPort.isSome = true ∧ t.DstPort.isSome = true) := by
  obtain ⟨hE, hI, hT⟩ := setPacketType_fields (dissectLayers s (decoder data))
  have ht := foldl_transport s (decoder data) (decoder data).decoded {}
  have hi := foldl_ip s (decoder data) (decoder data).decoded {}
  have he := foldl_ethernet s (decoder data) (decoder data).decoded {}
  obtain ⟨f1, f2, f3⟩ := foldl_eth_fields s (decoder data) (decoder data).decoded {}
  obtain ⟨f4, f5⟩ := foldl_vlan_fields s (decoder data) (decoder data).decoded {}
  have gi := foldl_ip_fields s (decoder data) (decoder data).decoded {} (by simp)
  have gt := foldl_transport_fields s (decoder data) (decoder data).decoded {} (by simp)
  simp only [Option.isSome_none, Bool.false_eq_true, false_or, Option.none_bind] at ht hi he
  simp only [Option.isSome_none, Bool.false_eq_true, false_or, Option.none_bind]
    at f1 f2 f3 f4 f5
  refine ⟨_, rfl, ?_, ?_, ?_, ?_, ?_, ?_⟩
  · rw [hE]; exact he
  · intro e hEq
    rw [hE] at hEq
    have hb : ∀ {α : Type} (f : PacketEthernet → Option α),
        (dissectLayers s (decoder data)).Ethernet.bind f = f e := by
      intro α f; rw [hEq]; rfl
    refine ⟨?_, ?_, ?_, ?_, ?_⟩
    · rw [← hb PacketEthernet.SrcMAC]; exact f1
    · rw [← hb PacketEthernet.DstMAC]; exact f2
    · rw [← hb PacketEthernet.EtherType]; exact f3
    · rw [← hb PacketEthernet.VlanID]; exact f4
    · rw [← hb PacketEthernet.PCP]; exact f5
  · rw [hI]; exact hi
  · intro i h; rw [hI] at h; exact gi i h
  · rw [hT]; exact ht
  · intro t h; rw [hT] at h; exact gt t h

/-- C3, the claim as stated fails: on an Ethernet frame that carries ARP the layers decoder
reports Ethernet as decoded, ARP as the next layer type and no error, and `DissectPacket`
returns a non-nil error. -/
theorem DissectPacket_unknown_next_layer_errors :
    (arpDecoder arpFrame).lt ≠ LayerType.Zero ∧ (arpDecoder arpFrame).err = none ∧
      (DissectPacket plainStringers arpDecoder arpFrame).2 ≠ none := by
  decide

/-- C3, amended. For every input on which the layers decoder returns a non-zero next layer
type and no error, `DissectPacket` returns the summary of the layers decoded so far together
with the non-nil error "unknown layer type" naming that next layer type. -/
theorem DissectPacket_unknown_next_layer (s : Stringers) (decoder : List Nat → Decoding)
    (data : List Nat) (hlt : (decoder data).lt ≠ LayerType.Zero)
    (_herr : (decoder data).err = none) :
    DissectPacket s decoder data =
      (some (setPacketType (dissectLayers s (decoder data))),
        some (DissectError.unknownLayerType (decoder data).lt)) := by
  simp [DissectPacket, dissectErr, hlt]

/-- C3, amended, at the ARP frame. -/
theorem DissectPacket_unknown_next_layer_witness :
    (arpDecoder arpFrame).lt ≠ LayerType.Zero ∧ (arpDecoder arpFrame).err = none ∧
      DissectPacket plainStringers arpDecoder arpFrame =
        (some (setPacketType (dissectLayers plainStringers (arpDecoder arpFrame))),
          some (DissectError.unknownLayerType (arpDecoder arpFrame).lt)) :=
  ⟨by decide, by decide,
    DissectPacket_unknown_next_layer plainStringers arpDecoder arpFrame (by decide) (by decide)⟩

/-! ## Bytes and alignment -/

theorem nlaAlign_ge (n : Nat) : n ≤ nlaAlign n := by
  unfold nlaAlign; omega

theorem nlaAlign_lt (n : Nat) : nlaAlign n < n + 4 := by
  unfold nlaAlign; omega

theorem nlaAlign_add_four (n : Nat) : nlaAlign (4 + n) = 4 + nlaAlign n := by
  unfold nlaAlign; omega

theorem leUint_putUint_two (v : Nat) (h : v < 65536) : leUint (putUint 2 v) = v := by
  simp only [putUint, leUint]
  omega

theorem putUint_length (n v : Nat) : (putUint n v).length = n := by
  induction n generalizing v with
  | zero => rfl
  | succ n ih => simp [putUint, ih]

theorem wire_length (a : Attribute) (h : a.wellFormed) :
    a.wire.length = nlaAlign a.Length := by
  obtain ⟨_, hl, _⟩ := h
  have := nlaAlign_ge a.Data.length
  simp only [Attribute.wire, List.length_append, putUint_length, List.length_replicate]
  rw [hl]
  unfold nlaHeaderLen
  rw [nlaAlign_add_four]
  omega

theorem wire_eq (a : Attribute) :
    a.wire = putUint 2 a.Length ++ (putUint 2 a.Typ ++ (a.Data
      ++ List.replicate (nlaAlign a.Data.length - a.Data.length) 0)) := by
  simp [Attribute.wire, List.append_assoc]

/-- Reading back one well-formed attribute from the front of a buffer gives that attribute. -/
theorem unmarshal_wire (a : Attribute) (rest : List Nat) (h : a.wellFormed) :
    Attribute.unmarshal (a.wire ++ rest) = Except.ok a := by
  have hlen := wire_length a h
  obtain ⟨ht, hl, hb⟩ := h
  have hge := nlaAlign_ge a.Length
  have h1 : (a.wire ++ rest).take 2 = putUint 2 a.Length := by
    rw [wire_eq, List.append_assoc]
    exact List.take_left' (putUint_length 2 _)
  have h2 : ((a.wire ++ rest).drop 2).take 2 = putUint 2 a.Typ := by
    rw [wire_eq, List.append_assoc, List.drop_left' (putUint_length 2 _), List.append_assoc]
    exact List.take_left' (putUint_length 2 _)
  have h3 : ((a.wire ++ rest).take a.Length).drop nlaHeaderLen = a.Data := by
    have e : a.wire ++ rest = (putUint 2 a.Length ++ putUint 2 a.Typ ++ a.Data) ++
        (List.replicate (nlaAlign a.Data.length - a.Data.length) 0 ++ rest) := by
      simp [Attribute.wire, List.append_assoc]
    rw [e, List.take_left' (by simp [putUint_length, hl, nlaHeaderLen]; omega)]
    exact List.drop_left' (by simp [putUint_length, nlaHeaderLen])
  unfold Attribute.unmarshal
  simp only [h1, h2, h3, leUint_putUint_two _ hb, leUint_putUint_two _ ht]
  have hL : (a.wire ++ rest).length = nlaAlign a.Length + rest.length := by
    simp [hlen]
  rw [hL]
  unfold nlaHeaderLen at hl ⊢
  have c1 : ¬ (nlaAlign a.Length + rest.length < 4) := by omega
  have c2 : ¬ (a.Length > nlaAlign a.Length + rest.length) := by omega
  have c3 : ¬ (a.Length = 0) := by omega
  have c4 : ¬ (a.Length < 4) := by omega
  simp only [c1, c2, c3, c4, if_false]

/-! ## The attribute decoder on a well-formed sequence -/

theorem wire_length_pos (a : Attribute) (h : a.wellFormed) : 4 ≤ a.wire.length := by
  rw [wire_length a h]
  have := nlaAlign_ge a.Length
  obtain ⟨_, hl, _⟩ := h
  unfold nlaHeaderLen at hl
  omega

theorem marshal_wire (a : Attribute) (h : a.wellFormed) : a.marshal = Except.ok a.wire := by
  obtain ⟨_, hl, _⟩ := h
  unfold nlaHeaderLen at hl
  have c1 : ¬ (a.Length = 0) := by omega
  have c2 : ¬ (a.Length < 4) := by omega
  simp [Attribute.marshal, Attribute.wire, c1, c2, nlaHeaderLen]

/-- The library's `MarshalAttributes` produces the wire bytes of a well-formed sequence. -/
theorem MarshalAttributes_wire (attrs : List Attribute) (h : ∀ a ∈ attrs, a.wellFormed) :
    MarshalAttributes attrs = Except.ok (wireAttrs attrs) := by
  induction attrs with
  | nil => rfl
  | cons a rest ih =>
    have ha := h a (List.mem_cons_self _ _)
    have hr := ih (fun x hx => h x (List.mem_cons_of_mem _ hx))
    simp [MarshalAttributes, marshal_wire a ha, hr, wireAttrs]

theorem wireAttrs_append (l1 l2 : List Attribute) :
    wireAttrs (l1 ++ l2) = wireAttrs l1 ++ wireAttrs l2 := by
  induction l1 with
  | nil => rfl
  | cons a rest ih => simp [wireAttrs, ih, List.append_assoc]

theorem wireAttrs_length (attrs : List Attribute) (h : ∀ a ∈ attrs, a.wellFormed) :
    4 * attrs.length ≤ (wireAttrs attrs).length := by
  induction attrs with
  | nil => simp [wireAttrs]
  | cons a rest ih =>
    have ha := wire_length_pos a (h a (List.mem_cons_self _ _))
    have hr := ih (fun x hx => h x (List.mem_cons_of_mem _ hx))
    simp only [wireAttrs, List.length_append, List.length_cons]
    omega

/-- On a decoder without error that stands at the start of a well-formed attribute, `Next`
yields that attribute and advances past it. -/
theorem Next_wire (ad : AttributeDecoder) (pre rest : List Nat) (a : Attribute)
    (ha : a.wellFormed) (herr : ad.err = none) (hb : ad.b = pre ++ (a.wire ++ rest))
    (hi : ad.i = pre.length) :
    ad.Next = (true, { ad with a := a, i := pre.length + a.wire.length }) := by
  have hpos := wire_length_pos a ha
  have hlen := wire_length a ha
  obtain ⟨_, hl, _⟩ := ha
  have hdrop : ad.b.drop ad.i = a.wire ++ rest := by
    rw [hb, hi]; exact List.drop_left _ _
  have hlt : ¬ (ad.i ≥ ad.b.length) := by
    rw [hb, hi]; simp only [List.length_append]; omega
  unfold AttributeDecoder.Next
  rw [hdrop, unmarshal_wire a rest ⟨by assumption, hl, by assumption⟩]
  unfold nlaHeaderLen at hl ⊢
  have c : ¬ (a.Length < 4) := by omega
  rw [hi] at hlt
  simp only [herr, Option.isSome_none, Bool.false_eq_true, if_false, hlt, c, hi, hlen]

theorem Next_end (ad : AttributeDecoder) (herr : ad.err = none) (hi : ad.i ≥ ad.b.length) :
    ad.Next = (false, ad) := by
  unfold AttributeDecoder.Next
  simp [herr, hi]

theorem Next_err (ad : AttributeDecoder) (e : NlError) (herr : ad.err = some e) :
    ad.Next = (false, ad) := by
  unfold AttributeDecoder.Next
  simp [herr]

theorem forNext_err {σ : Type} (body : σ → AttributeDecoder → σ × AttributeDecoder)
    (fuel : Nat) (st : σ) (ad : AttributeDecoder) (e : NlError) (herr : ad.err = some e) :
    forNext body fuel st ad = (st, ad) := by
  cases fuel with
  | zero => rfl
  | succ n => simp [forNext, Next_err ad e herr]

/-- The loop `for ad.Next()` over the wire bytes of a well-formed sequence does what
`foldAttrs` does over the sequence, for a body that reads the current attribute and records
at most an error. -/
theorem forNext_wire {σ : Type} (body : σ → AttributeDecoder → σ × AttributeDecoder)
    (f : σ → Attribute → σ × Option NlError)
    (hbody : ∀ st ad, ad.err = none →
      body st ad = ((f st ad.a).1, { ad with err := (f st ad.a).2 }))
    (attrs : List Attribute) (hwf : ∀ a ∈ attrs, a.wellFormed) :
    ∀ (fuel : Nat) (st : σ) (ad : AttributeDecoder) (pre : List Nat),
      attrs.length < fuel → ad.err = none → ad.b = pre ++ wireAttrs attrs →
      ad.i = pre.length →
      (forNext body fuel st ad).1 = (foldAttrs f st attrs).1 ∧
        (forNext body fuel st ad).2.err = (foldAttrs f st attrs).2 := by
  induction attrs with
  | nil =>
    intro fuel st ad pre hfuel herr hb hi
    cases fuel with
    | zero => omega
    | succ n =>
      have hend : ad.i ≥ ad.b.length := by rw [hb, hi]; simp [wireAttrs]
      simp [forNext, Next_end ad herr hend, foldAttrs, herr]
  | cons a rest ih =>
    intro fuel st ad pre hfuel herr hb hi
    have ha := hwf a (List.mem_cons_self _ _)
    have hr : ∀ x ∈ rest, x.wellFormed := fun x hx => hwf x (List.mem_cons_of_mem _ hx)
    cases fuel with
    | zero => omega
    | succ n =>
      have hn : rest.length < n := by simp only [List.length_cons] at hfuel; omega
      have hnext := Next_wire ad pre (wireAttrs rest) a ha herr (by simpa [wireAttrs] using hb) hi
      have hb1 := hbody st { ad with a := a, i := pre.length + a.wire.length } herr
      simp only [forNext, hnext, hb1, foldAttrs]
      cases hf : f st a with
      | mk st1 oe =>
        cases oe with
        | some e =>
          simp only
          rw [forNext_err body n st1 _ e rfl]
          exact ⟨rfl, rfl⟩
        | none =>
          simp only
          have := ih hr n st1 { ad with a := a, i := pre.length + a.wire.length, err := none }
            (pre ++ a.wire) hn rfl (by simp [hb, wireAttrs, List.append_assoc]) (by simp)
          exact this

/-! ## The scan of `NewAttributeDecoder` -/

theorem availableLoop_step (pre rest : List Nat) (a : Attribute) (ha : a.wellFormed)
    (fuel c : Nat) :
    availableLoop (pre ++ (a.wire ++ rest)) (fuel + 1) pre.length c =
      availableLoop (pre ++ (a.wire ++ rest)) fuel (pre.length + a.wire.length) (c + 1) := by
  have hpos := wire_length_pos a ha
  have hlen := wire_length a ha
  obtain ⟨_, hl, hb⟩ := ha
  unfold nlaHeaderLen at hl
  have h1 : ((pre ++ (a.wire ++ rest)).drop pre.length).take 2 = putUint 2 a.Length := by
    rw [List.drop_left, wire_eq, List.append_assoc]
    exact List.take_left' (putUint_length 2 _)
  have c1 : ¬ (pre.length ≥ (pre ++ (a.wire ++ rest)).length) := by
    simp only [List.length_append]; omega
  have c2 : ¬ ((pre ++ (a.wire ++ rest)).length - pre.length < 4) := by
    simp only [List.length_append]; omega
  have c3 : ¬ (a.Length < 4) := by omega
  have c4 : a.Length ≠ 0 := by omega
  rw [availableLoop]
  simp only [c1, c2, h1, leUint_putUint_two _ hb, c3, c4, nlaHeaderLen, if_false, if_true,
    ne_eq, not_false_eq_true, hlen]

/-- The scan accepts the wire bytes of a well-formed sequence, whatever the fuel. -/
theorem availableLoop_wire (attrs : List Attribute) (hwf : ∀ a ∈ attrs, a.wellFormed) :
    ∀ (fuel c : Nat) (pre : List Nat),
      ∃ n, availableLoop (pre ++ wireAttrs attrs) fuel pre.length c = Except.ok n := by
  induction attrs with
  | nil =>
    intro fuel c pre
    cases fuel with
    | zero => exact ⟨c, rfl⟩
    | succ n => exact ⟨c, by simp [availableLoop, wireAttrs]⟩
  | cons a rest ih =>
    intro fuel c pre
    have ha := hwf a (List.mem_cons_self _ _)
    have hr : ∀ x ∈ rest, x.wellFormed := fun x hx => hwf x (List.mem_cons_of_mem _ hx)
    cases fuel with
    | zero => exact ⟨c, rfl⟩
    | succ n =>
      obtain ⟨m, hm⟩ := ih hr n (c + 1) (pre ++ a.wire)
      refine ⟨m, ?_⟩
      simp only [wireAttrs]
      rw [availableLoop_step pre (wireAttrs rest) a ha n c]
      simpa [List.append_assoc] using hm

/-- The scan refuses a well-formed sequence followed by one to three stray bytes: a
truncated length prefix. -/
theorem availableLoop_truncated (attrs : List Attribute) (hwf : ∀ a ∈ attrs, a.wellFormed)
    (t : List Nat) (ht : 0 < t.length ∧ t.length < nlaHeaderLen) :
    ∀ (fuel c : Nat) (pre : List Nat), attrs.length < fuel →
      availableLoop (pre ++ (wireAttrs attrs ++ t)) fuel pre.length c =
        Except.error NlError.invalidAttribute := by
  unfold nlaHeaderLen at ht
  induction attrs with
  | nil =>
    intro fuel c pre hfuel
    cases fuel with
    | zero => omega
    | succ n =>
      have c1 : ¬ (pre.length ≥ (pre ++ t).length) := by
        simp only [List.length_append]; omega
      have c2 : (pre ++ t).length - pre.length < 4 := by
        simp only [List.length_append]; omega
      simp only [wireAttrs, List.nil_append]
      rw [availableLoop]
      simp only [c1, c2, nlaHeaderLen, if_false, if_true]
  | cons a rest ih =>
    intro fuel c pre hfuel
    have ha := hwf a (List.mem_cons_self _ _)
    have hr : ∀ x ∈ rest, x.wellFormed := fun x hx => hwf x (List.mem_cons_of_mem _ hx)
    cases fuel with
    | zero => omega
    | succ n =>
      have hn : rest.length < n := by simp only [List.length_cons] at hfuel; omega
      have := ih hr n (c + 1) (pre ++ a.wire) hn
      simp only [wireAttrs, List.append_assoc]
      rw [availableLoop_step pre (wireAttrs rest ++ t) a ha n c]
      simpa [List.append_assoc] using this

/-- Fuel: once the fuel exceeds the bytes left, more fuel does not change the scan. -/
theorem availableLoop_fuel (b : List Nat) :
    ∀ (fuel i c fuel1 : Nat), b.length < i + fuel → b.length < i + fuel1 →
      availableLoop b fuel i c = availableLoop b fuel1 i c := by
  intro fuel
  induction fuel with
  | zero =>
    intro i c fuel1 h _
    have hi : i ≥ b.length := by omega
    cases fuel1 with
    | zero => rfl
    | succ m => simp [availableLoop, hi]
  | succ n ih =>
    intro i c fuel1 h h1
    cases fuel1 with
    | zero =>
      have hi : i ≥ b.length := by omega
      simp [availableLoop, hi]
    | succ m =>
      rw [availableLoop, availableLoop]
      by_cases c1 : i ≥ b.length
      · simp [c1]
      · by_cases c2 : b.length - i < nlaHeaderLen
        · simp [c1, c2]
        · simp only [c1, c2, if_false]
          apply ih
          · have := nlaAlign_ge (if leUint ((b.drop i).take 2) < nlaHeaderLen then nlaHeaderLen
              else leUint ((b.drop i).take 2))
            unfold nlaHeaderLen at this ⊢
            split_ifs at this ⊢ <;> omega
          · have := nlaAlign_ge (if leUint ((b.drop i).take 2) < nlaHeaderLen then nlaHeaderLen
              else leUint ((b.drop i).take 2))
            unfold nlaHeaderLen at this ⊢
            split_ifs at this ⊢ <;> omega

theorem NewAttributeDecoder_wire (attrs : List Attribute) (hwf : ∀ a ∈ attrs, a.wellFormed) :
    ∃ n, NewAttributeDecoder (wireAttrs attrs) =
      Except.ok { b := wireAttrs attrs, length := n } := by
  obtain ⟨n, hn⟩ := availableLoop_wire attrs hwf ((wireAttrs attrs).length + 1) 0 []
  refine ⟨n, ?_⟩
  simp only [List.nil_append, List.length_nil] at hn
  simp [NewAttributeDecoder, hn]

theorem NewAttributeDecoder_truncated (attrs : List Attribute)
    (hwf : ∀ a ∈ attrs, a.wellFormed) (t : List Nat)
    (ht : 0 < t.length ∧ t.length < nlaHeaderLen) :
    NewAttributeDecoder (wireAttrs attrs ++ t) = Except.error NlError.invalidAttribute := by
  have hlen := wireAttrs_length attrs hwf
  have := availableLoop_truncated attrs hwf t ht ((wireAttrs attrs ++ t).length + 1) 0 []
    (by simp only [List.length_append]; omega)
  simp only [List.nil_append, List.length_nil] at this
  unfold NewAttributeDecoder
  rw [this]

/-! ## The loop bodies read the current attribute and record at most an error -/

theorem Uint_eq (bits : Nat) (ad : AttributeDecoder) (herr : ad.err = none) :
    ad.Uint bits = ((AttributeDecoder.Uint bits { a := ad.a }).1,
      { ad with err := (AttributeDecoder.Uint bits { a := ad.a }).2.err }) := by
  unfold AttributeDecoder.Uint AttributeDecoder.Typ
  cases ad with
  | mk a b i length err =>
    simp only at herr
    subst herr
    by_cases h : a.Data.length = bits / 8 <;> simp [h]

theorem String_eq (ad : AttributeDecoder) (herr : ad.err = none) :
    ad.String = AttributeDecoder.String { a := ad.a } := by
  simp [AttributeDecoder.String, herr]

theorem Do_eq {σ : Type} (fn : σ → List Nat → σ × Option NlError) (st : σ)
    (ad : AttributeDecoder) (herr : ad.err = none) :
    ad.Do fn st = ((AttributeDecoder.Do { a := ad.a } fn st).1,
      { ad with err := (AttributeDecoder.Do { a := ad.a } fn st).2.err }) := by
  unfold AttributeDecoder.Do
  cases ad with
  | mk a b i length err =>
    simp only at herr
    subst herr
    simp only [Option.isSome_none, Bool.false_eq_true, if_false]
    rcases fn st a.Data with ⟨st1, _ | e⟩ <;> rfl

theorem decodeBody_eq (st : AlertMsg) (ad : AttributeDecoder) (herr : ad.err = none) :
    decodeBody st ad = ((decodeAttr st ad.a).1, { ad with err := (decodeAttr st ad.a).2 }) := by
  unfold decodeAttr decodeBody
  simp only [AttributeDecoder.Typ, AttributeDecoder.Bytes]
  rw [String_eq ad herr, Uint_eq 16 ad herr, Uint_eq 32 ad herr, Uint_eq 64 ad herr,
    Do_eq AlertMsgPort.decode st.Port ad herr]
  split_ifs <;> first
    | rfl
    | (cases ad; simp only at herr; subst herr; rfl)

theorem portBody_eq (st : AlertMsgPort) (ad : AttributeDecoder) (herr : ad.err = none) :
    AlertMsgPort.decodeBody st ad =
      ((decodePortAttr st ad.a).1, { ad with err := (decodePortAttr st ad.a).2 }) := by
  unfold decodePortAttr AlertMsgPort.decodeBody
  simp only [AttributeDecoder.Typ]
  rw [String_eq ad herr, Uint_eq 32 ad herr]
  split_ifs <;> first
    | rfl
    | (cases ad; simp only at herr; subst herr; rfl)

/-! ## `decodeAlertMessage` on a well-formed sequence -/

/-- On the wire bytes of a well-formed sequence `decodeAlertMessage` returns what the switch
does attribute by attribute: the message when no attribute records an error, otherwise the
first error and no message. -/
theorem decodeAlertMessage_wire (hdr : Header) (attrs : List Attribute)
    (hwf : ∀ a ∈ attrs, a.wellFormed) :
    decodeAlertMessage (some ⟨hdr, wireAttrs attrs⟩) =
      match foldAttrs decodeAttr {} attrs with
      | (m, none) => (some m, none)
      | (_, some e) => (none, some (NlError.wrapped "failed to decode attributes" e)) := by
  obtain ⟨n, hn⟩ := NewAttributeDecoder_wire attrs hwf
  have hlen := wireAttrs_length attrs hwf
  obtain ⟨h1, h2⟩ := forNext_wire decodeBody decodeAttr decodeBody_eq attrs hwf
    ((wireAttrs attrs).length + 1) {} { b := wireAttrs attrs, length := n } []
    (by omega) rfl rfl rfl
  unfold decodeAlertMessage
  simp only [hn]
  rcases hr : forNext decodeBody ((wireAttrs attrs).length + 1) {}
    { b := wireAttrs attrs, length := n } with ⟨m, ad1⟩
  rw [hr] at h1 h2
  simp only at h1 h2
  rcases hf : foldAttrs decodeAttr {} attrs with ⟨m1, oe⟩
  rw [hf] at h1 h2
  simp only at h1 h2
  subst h1
  cases oe with
  | none => simp [AttributeDecoder.Err, h2]
  | some e => simp [AttributeDecoder.Err, h2]

/-- On the wire bytes of a well-formed sequence `AlertMsgPort.decode` returns what its
switch does attribute by attribute. -/
theorem portDecode_wire (p : AlertMsgPort) (attrs : List Attribute)
    (hwf : ∀ a ∈ attrs, a.wellFormed) :
    AlertMsgPort.decode p (wireAttrs attrs) = foldAttrs decodePortAttr p attrs := by
  obtain ⟨n, hn⟩ := NewAttributeDecoder_wire attrs hwf
  have hlen := wireAttrs_length attrs hwf
  obtain ⟨h1, h2⟩ := forNext_wire AlertMsgPort.decodeBody decodePortAttr portBody_eq attrs hwf
    ((wireAttrs attrs).length + 1) p { b := wireAttrs attrs, length := n } []
    (by omega) rfl rfl rfl
  unfold AlertMsgPort.decode
  simp only [hn]
  rcases hr : forNext AlertMsgPort.decodeBody ((wireAttrs attrs).length + 1) p
    { b := wireAttrs attrs, length := n } with ⟨m, ad1⟩
  rw [hr] at h1 h2
  simp only at h1 h2
  simp only [AttributeDecoder.Err, h2, h1]

theorem foldAttrs_skip {σ : Type} (f : σ → Attribute → σ × Option NlError) (a : Attribute)
    (hskip : ∀ st, f st a = (st, none)) (pre post : List Attribute) :
    ∀ st, foldAttrs f st (pre ++ a :: post) = foldAttrs f st (pre ++ post) := by
  induction pre with
  | nil => intro st; simp [foldAttrs, hskip]
  | cons b rest ih =>
    intro st
    simp only [List.cons_append, foldAttrs]
    rcases f st b with ⟨st1, _ | e⟩
    · exact ih st1
    · rfl

theorem foldAttrs_error {σ : Type} (f : σ → Attribute → σ × Option NlError) (a : Attribute)
    (hbad : ∀ st, (f st a).2 ≠ none) (pre post : List Attribute) :
    ∀ st, (foldAttrs f st (pre ++ a :: post)).2 ≠ none := by
  induction pre with
  | nil =>
    intro st
    have := hbad st
    simp only [List.nil_append, foldAttrs]
    rcases hf : f st a with ⟨st1, _ | e⟩
    · rw [hf] at this
      exact absurd rfl this
    · simp
  | cons b rest ih =>
    intro st
    simp only [List.cons_append, foldAttrs]
    rcases f st b with ⟨st1, _ | e⟩
    · exact ih st1
    · simp

/-- The id the switch of `decodeAlertMessage` sees: the library has masked the two flag
bits, so clearing the top bit again changes nothing. -/
theorem switch_id (t : Nat) : t % 16384 % 65536 % 32768 = t % 16384 := by
  omega

/-- An attribute whose id, flag bits masked off, is none of the eight consumed ids leaves
the message untouched and records no error. -/
theorem decodeAttr_skip (st : AlertMsg) (a : Attribute)
    (hid : a.Typ % 16384 ∉ consumedIds) : decodeAttr st a = (st, none) := by
  simp only [consumedIds, List.mem_cons, List.mem_singleton, not_or, List.mem_nil_iff,
    or_false] at hid
  obtain ⟨h1, h2, h3, h4, h5, h6, h7, h8⟩ := hid
  simp [decodeAttr, decodeBody, AttributeDecoder.Typ, switch_id, h1, h2, h3, h4, h5, h6,
    h7, h8]

/-! ## Fuel and invariants of the loop `for ad.Next()` -/

theorem Next_stop (ad : AttributeDecoder) (hi : ad.i ≥ ad.b.length) : ad.Next = (false, ad) := by
  unfold AttributeDecoder.Next
  by_cases h : ad.err.isSome = true <;> simp [h, hi]

theorem Next_true (ad ad1 : AttributeDecoder) (h : ad.Next = (true, ad1)) :
    ad1.b = ad.b ∧ ad.i + 4 ≤ ad1.i ∧ ad1.err = none := by
  unfold AttributeDecoder.Next at h
  split_ifs at h with h1 h2
  · cases h
  · cases h
  · have herr : ad.err = none := by
      cases he : ad.err with
      | none => rfl
      | some e => simp [he] at h1
    split at h
    · cases h
    · split_ifs at h <;> cases h
      · exact ⟨rfl, by simp [nlaHeaderLen], herr⟩
      · refine ⟨rfl, ?_, herr⟩
        have := nlaAlign_ge ‹Attribute›.Length
        unfold nlaHeaderLen at *
        simp only
        omega

/-- Fuel: once the fuel exceeds the bytes left, more fuel does not change what the loop
returns, for a body that leaves the input and the index alone. -/
theorem forNext_fuel {σ : Type} (body : σ → AttributeDecoder → σ × AttributeDecoder)
    (hbody : ∀ st ad, (body st ad).2.b = ad.b ∧ (body st ad).2.i = ad.i) :
    ∀ (fuel : Nat) (st : σ) (ad : AttributeDecoder) (fuel1 : Nat),
      ad.b.length < ad.i + fuel → ad.b.length < ad.i + fuel1 →
      forNext body fuel st ad = forNext body fuel1 st ad := by
  intro fuel
  induction fuel with
  | zero =>
    intro st ad fuel1 h _
    have hi : ad.i ≥ ad.b.length := by omega
    cases fuel1 with
    | zero => rfl
    | succ m => simp [forNext, Next_stop ad hi]
  | succ n ih =>
    intro st ad fuel1 h h1
    cases fuel1 with
    | zero =>
      have hi : ad.i ≥ ad.b.length := by omega
      simp [forNext, Next_stop ad hi]
    | succ m =>
      simp only [forNext]
      rcases hn : ad.Next with ⟨_ | _, ad1⟩
      · rfl
      · obtain ⟨hb, hi, _⟩ := Next_true ad ad1 hn
        simp only
        rcases hbd : body st ad1 with ⟨st2, ad2⟩
        have := hbody st ad1
        rw [hbd] at this
        simp only at this
        obtain ⟨hb2, hi2⟩ := this
        simp only
        apply ih <;> rw [hb2, hi2, hb] <;> omega

theorem forNext_invariant {σ : Type} (body : σ → AttributeDecoder → σ × AttributeDecoder)
    (P : σ → AttributeDecoder → Prop)
    (hNext : ∀ st ad, P st ad → P st ad.Next.2)
    (hbody : ∀ st ad, P st ad → P (body st ad).1 (body st ad).2) :
    ∀ (fuel : Nat) (st : σ) (ad : AttributeDecoder), P st ad →
      P (forNext body fuel st ad).1 (forNext body fuel st ad).2 := by
  intro fuel
  induction fuel with
  | zero => intro st ad h; exact h
  | succ n ih =>
    intro st ad h
    simp only [forNext]
    have h1 := hNext st ad h
    rcases hn : ad.Next with ⟨_ | _, ad1⟩
    · rw [hn] at h1; exact h1
    · rw [hn] at h1
      simp only at h1 ⊢
      have h2 := hbody st ad1 h1
      rcases hbd : body st ad1 with ⟨st2, ad2⟩
      rw [hbd] at h2
      exact ih st2 ad2 h2

theorem forNext_snd_indep {σ : Type} (body : σ → AttributeDecoder → σ × AttributeDecoder)
    (hbody : ∀ st st1 ad, (body st ad).2 = (body st1 ad).2) :
    ∀ (fuel : Nat) (st st1 : σ) (ad : AttributeDecoder),
      (forNext body fuel st ad).2 = (forNext body fuel st1 ad).2 := by
  intro fuel
  induction fuel with
  | zero => intro st st1 ad; rfl
  | succ n ih =>
    intro st st1 ad
    simp only [forNext]
    rcases ad.Next with ⟨_ | _, ad1⟩
    · rfl
    · simp only
      have := hbody st st1 ad1
      rcases h1 : body st ad1 with ⟨a1, b1⟩
      rcases h2 : body st1 ad1 with ⟨a2, b2⟩
      rw [h1, h2] at this
      simp only at this
      subst this
      exact ih a1 a2 b1

theorem Uint_frame (bits : Nat) (ad : AttributeDecoder) :
    (ad.Uint bits).2.b = ad.b ∧ (ad.Uint bits).2.i = ad.i ∧ (ad.Uint bits).2.a = ad.a := by
  unfold AttributeDecoder.Uint
  split_ifs <;> simp

theorem Do_frame {σ : Type} (fn : σ → List Nat → σ × Option NlError) (st : σ)
    (ad : AttributeDecoder) :
    (ad.Do fn st).2.b = ad.b ∧ (ad.Do fn st).2.i = ad.i ∧ (ad.Do fn st).2.a = ad.a := by
  unfold AttributeDecoder.Do
  split_ifs
  · simp
  · rcases fn st ad.a.Data with ⟨st1, _ | e⟩ <;> simp

theorem decodeBody_frame (st : AlertMsg) (ad : AttributeDecoder) :
    (decodeBody st ad).2.b = ad.b ∧ (decodeBody st ad).2.i = ad.i ∧
      (decodeBody st ad).2.a = ad.a := by
  simp only [decodeBody]
  have h16 := Uint_frame 16 ad
  have h32 := Uint_frame 32 ad
  have h64 := Uint_frame 64 ad
  have hdo := Do_frame AlertMsgPort.decode st.Port ad
  split_ifs <;> simp [h16, h32, h64, hdo]

theorem portBody_frame (st : AlertMsgPort) (ad : AttributeDecoder) :
    (AlertMsgPort.decodeBody st ad).2.b = ad.b ∧ (AlertMsgPort.decodeBody st ad).2.i = ad.i ∧
      (AlertMsgPort.decodeBody st ad).2.a = ad.a := by
  simp only [AlertMsgPort.decodeBody]
  have h32 := Uint_frame 32 ad
  split_ifs <;> simp [h32]

/-- Fuel of `decodeAlertMessage`: the loop over the attributes returns the same with any
fuel above the length of the data, so the bound `len + 1` never cuts an iteration short. -/
theorem decodeAlertMessage_fuel (data : List Nat) (ad : AttributeDecoder) (hb : ad.b = data)
    (extra : Nat) :
    forNext decodeBody (data.length + 1) {} ad =
      forNext decodeBody (data.length + 1 + extra) {} ad := by
  apply forNext_fuel decodeBody
    (fun st ad => ⟨(decodeBody_frame st ad).1, (decodeBody_frame st ad).2.1⟩)
  · rw [hb]; omega
  · rw [hb]; omega

/-- Fuel of `AlertMsgPort.decode`, as for `decodeAlertMessage`. -/
theorem portDecode_fuel (data : List Nat) (p : AlertMsgPort) (ad : AttributeDecoder)
    (hb : ad.b = data) (extra : Nat) :
    forNext AlertMsgPort.decodeBody (data.length + 1) p ad =
      forNext AlertMsgPort.decodeBody (data.length + 1 + extra) p ad := by
  apply forNext_fuel AlertMsgPort.decodeBody
    (fun st ad => ⟨(portBody_frame st ad).1, (portBody_frame st ad).2.1⟩)
  · rw [hb]; omega
  · rw [hb]; omega

/-! ## The claims on `dropmon.go` -/

theorem leUint_putUint_four (v : Nat) (h : v < 4294967296) : leUint (putUint 4 v) = v := by
  simp only [putUint, leUint]
  omega

theorem dropWhile_zeros (k : Nat) (l : List Nat) (h : l.head? ≠ some 0) :
    (List.replicate k 0 ++ l).dropWhile (fun x => x == 0) = l := by
  induction k with
  | zero =>
    cases l with
    | nil => rfl
    | cons x rest =>
      have hx : x ≠ 0 := by simpa using h
      simp [List.dropWhile_cons, hx]
  | succ n ih => simpa [List.replicate_succ, List.dropWhile] using ih

theorem trimNul_append_zeros (s : List Nat) (k : Nat) (h : s.getLast? ≠ some 0) :
    trimNul (s ++ List.replicate k 0) = s := by
  unfold trimNul
  rw [List.reverse_append, List.reverse_replicate, dropWhile_zeros k s.reverse
    (by simpa [List.head?_reverse] using h), List.reverse_reverse]

/-- C2, the code at the failing input: the receive loop sends on the output channel whatever
`decodeAlertMessage` returned, also the nil pointer of a failed decoding; on `truncatedMsg`
the decoding fails, the loop prints the error and then sends nil, and the alert-processing
loop panics on a nil alert. -/
theorem Start_sends_nil_on_decode_failure :
    (∀ msg, sentValues (Start.handle msg) = [(decodeAlertMessage (some msg)).1]) ∧
      decodeAlertMessage (some truncatedMsg) =
        (none, some (NlError.wrapped "failed to create attribute decoder"
          NlError.invalidAttribute)) ∧
      Start.deliver [truncatedMsg] =
        [StartEvent.printed (NlError.wrapped "failed to create attribute decoder"
           NlError.invalidAttribute), StartEvent.sent none] ∧
      (∀ s decoder, processAlertMessage s decoder none =
        Except.error Fault.nilPointerDereference) := by
  refine ⟨?_, by decide, by decide, fun _ _ => rfl⟩
  intro msg
  unfold Start.handle
  rcases decodeAlertMessage (some msg) with ⟨a, _ | e⟩ <;> rfl

/-- C8. For every pair of booleans the request of `EnableDropMonitor` has command START (3)
and the request of `DisableDropMonitor` has command STOP (4), both carry the family version,
and in both the attribute data is: a zero-length SW_DROPS attribute (id 20) exactly when
`monitorSW` is true, then a zero-length HW_DROPS attribute (id 21) exactly when `monitorHW`
is true, and nothing else (empty data when both are false); read back with the attribute
decoder the data yields exactly those attributes; and it is this request that is handed to
`Execute`. -/
theorem DropMonitor_requests (version : Nat) (monitorSW monitorHW : Bool)
    (execute : Message → Option NlError) :
    EnableDropMonitor.req version monitorSW monitorHW =
        Except.ok { Header := { Command := 3, Version := version },
                    Data := (if monitorSW then [4, 0, 20, 0] else []) ++
                      (if monitorHW then [4, 0, 21, 0] else []) } ∧
      DisableDropMonitor.req version monitorSW monitorHW =
        Except.ok { Header := { Command := 4, Version := version },
                    Data := (if monitorSW then [4, 0, 20, 0] else []) ++
                      (if monitorHW then [4, 0, 21, 0] else []) } ∧
      attributesOf ((if monitorSW then [4, 0, 20, 0] else []) ++
          (if monitorHW then [4, 0, 21, 0] else [])) =
        Except.ok ((if monitorSW then [attr NET_DM_ATTR_SW_DROPS []] else []) ++
          (if monitorHW then [attr NET_DM_ATTR_HW_DROPS []] else [])) ∧
      EnableDropMonitor execute version monitorSW monitorHW =
        (execute { Header := { Command := 3, Version := version },
                   Data := (if monitorSW then [4, 0, 20, 0] else []) ++
                     (if monitorHW then [4, 0, 21, 0] else []) }).map
          (NlError.wrapped "failed to execute") ∧
      DisableDropMonitor execute version monitorSW monitorHW =
        (execute { Header := { Command := 4, Version := version },
                   Data := (if monitorSW then [4, 0, 20, 0] else []) ++
                     (if monitorHW then [4, 0, 21, 0] else []) }).map
          (NlError.wrapped "failed to execute") := by
  have e1 : EnableDropMonitor.req version monitorSW monitorHW =
      Except.ok { Header := { Command := 3, Version := version },
                  Data := (if monitorSW then [4, 0, 20, 0] else []) ++
                    (if monitorHW then [4, 0, 21, 0] else []) } := by
    cases monitorSW <;> cases monitorHW <;> rfl
  have e2 : DisableDropMonitor.req version monitorSW monitorHW =
      Except.ok { Header := { Command := 4, Version := version },
                  Data := (if monitorSW then [4, 0, 20, 0] else []) ++
                    (if monitorHW then [4, 0, 21, 0] else []) } := by
    cases monitorSW <;> cases monitorHW <;> rfl
  refine ⟨e1, e2, ?_, ?_, ?_⟩
  · cases monitorSW <;> cases monitorHW <;> rfl
  · simp only [EnableDropMonitor, e1]
    split <;> simp_all
  · simp only [DisableDropMonitor, e2]
    split <;> simp_all

/-- C9, the code at the failing input: on a drop monitor whose `Init` succeeded the first
`Close` completes and leaves the stop channel and the connection closed, and the second
`Close` panics on closing the closed channel; on a freshly constructed drop monitor `Close`
panics on the nil connection. -/
theorem Close_twice_panics :
    readyDropMon =
        { conn := some { closed := false }, family := some { ID := 31, Version := 2 },
          stopped := some Chan.isOpen } ∧
      DropMon.Close readyDropMon =
        Except.ok { conn := some { closed := true }, family := some { ID := 31, Version := 2 },
                    stopped := some Chan.isClosed } ∧
      DropMon.Close { conn := some { closed := true },
                      family := some { ID := 31, Version := 2 },
                      stopped := some Chan.isClosed } =
        Except.error Fault.closeOfClosedChannel ∧
      DropMon.Close NewDropMon = Except.error Fault.nilPointerDereference :=
  ⟨rfl, rfl, rfl, rfl⟩

theorem portDecode_err_indep (p p1 : AlertMsgPort) (b : List Nat) :
    (AlertMsgPort.decode p b).2 = (AlertMsgPort.decode p1 b).2 := by
  unfold AlertMsgPort.decode
  cases NewAttributeDecoder b with
  | error e => rfl
  | ok ad =>
    have h := forNext_snd_indep AlertMsgPort.decodeBody (by
      intro st st1 ad
      simp only [AlertMsgPort.decodeBody]
      split_ifs <;> rfl) (b.length + 1) p p1 ad
    simp only
    rw [h]

/-- An attribute with a bad value makes the switch record an error, whatever the message
decoded so far. -/
theorem decodeAttr_bad (st : AlertMsg) (a : Attribute) (ha : a.Typ < 65536)
    (hbad : a.badValue) : (decodeAttr st a).2 ≠ none := by
  have h : a.Typ % 65536 = a.Typ := Nat.mod_eq_of_lt ha
  simp only [Attribute.badValue, NET_DM_ATTR_ORIGIN, NET_DM_ATTR_PROTO, NET_DM_ATTR_ORIG_LEN,
    NET_DM_ATTR_TIMESTAMP, NET_DM_ATTR_IN_PORT] at hbad
  rcases hbad with ⟨h1 | h1, h2⟩ | ⟨h1, h2⟩ | ⟨h1, h2⟩ | ⟨h1, h2⟩
  · simp [decodeAttr, decodeBody, AttributeDecoder.Typ, h, h1, AttributeDecoder.Uint, h2,
      NET_DM_ATTR_HW_TRAP_GROUP_NAME, NET_DM_ATTR_HW_TRAP_NAME, NET_DM_ATTR_ORIGIN]
  · simp [decodeAttr, decodeBody, AttributeDecoder.Typ, h, h1, AttributeDecoder.Uint, h2,
      NET_DM_ATTR_HW_TRAP_GROUP_NAME, NET_DM_ATTR_HW_TRAP_NAME, NET_DM_ATTR_ORIGIN,
      NET_DM_ATTR_IN_PORT, NET_DM_ATTR_TIMESTAMP, NET_DM_ATTR_PROTO]
  · simp [decodeAttr, decodeBody, AttributeDecoder.Typ, h, h1, AttributeDecoder.Uint, h2,
      NET_DM_ATTR_HW_TRAP_GROUP_NAME, NET_DM_ATTR_HW_TRAP_NAME, NET_DM_ATTR_ORIGIN,
      NET_DM_ATTR_IN_PORT, NET_DM_ATTR_TIMESTAMP, NET_DM_ATTR_PROTO, NET_DM_ATTR_ORIG_LEN]
  · simp [decodeAttr, decodeBody, AttributeDecoder.Typ, h, h1, AttributeDecoder.Uint, h2,
      NET_DM_ATTR_HW_TRAP_GROUP_NAME, NET_DM_ATTR_HW_TRAP_NAME, NET_DM_ATTR_ORIGIN,
      NET_DM_ATTR_IN_PORT, NET_DM_ATTR_TIMESTAMP]
  · rw [portDecode_err_indep {} st.Port] at h2
    simp only [decodeAttr, decodeBody, AttributeDecoder.Typ, h, h1, AttributeDecoder.Do,
      NET_DM_ATTR_HW_TRAP_GROUP_NAME, NET_DM_ATTR_HW_TRAP_NAME, NET_DM_ATTR_ORIGIN,
      NET_DM_ATTR_IN_PORT]
    rcases hd : AlertMsgPort.decode st.Port a.Data with ⟨p1, _ | e⟩
    · rw [hd] at h2; exact absurd rfl h2
    · simp

/-- C4. `decodeAlertMessage` rejects a nil message with an error; on a well-formed attribute
sequence followed by one to three stray bytes (a truncated length prefix) it returns the
error of the attribute decoder and no message; on a well-formed sequence that holds a
consumed attribute whose value has the wrong length for its primitive type, or an
ingress-port group that fails to decode, it returns one error and no message; and on every
input it returns either a message and no error or an error and no message. -/
theorem decodeAlertMessage_errors (hdr : Header) (pre post : List Attribute) (a : Attribute)
    (t : List Nat) (hpre : ∀ x ∈ pre, x.wellFormed) (hpost : ∀ x ∈ post, x.wellFormed)
    (ha : a.wellFormed) (ht : 0 < t.length ∧ t.length < nlaHeaderLen) (hbad : a.badValue) :
    decodeAlertMessage none = (none, some NlError.messageIsNil) ∧
      decodeAlertMessage (some ⟨hdr, wireAttrs pre ++ t⟩) =
        (none, some (NlError.wrapped "failed to create attribute decoder"
          NlError.invalidAttribute)) ∧
      (∃ e, decodeAlertMessage (some ⟨hdr, wireAttrs (pre ++ a :: post)⟩) =
        (none, some (NlError.wrapped "failed to decode attributes" e))) ∧
      (∀ msg, (∃ m, decodeAlertMessage msg = (some m, none)) ∨
        (∃ e, decodeAlertMessage msg = (none, some e))) := by
  refine ⟨rfl, ?_, ?_, ?_⟩
  · unfold decodeAlertMessage
    simp only [NewAttributeDecoder_truncated pre hpre t ht]
  · have hwf : ∀ x ∈ pre ++ a :: post, x.wellFormed := by
      intro x hx
      rcases List.mem_append.mp hx with h | h
      · exact hpre x h
      · rcases List.mem_cons.mp h with h | h
        · exact h ▸ ha
        · exact hpost x h
    rw [decodeAlertMessage_wire hdr _ hwf]
    have herr := foldAttrs_error decodeAttr a (fun st => decodeAttr_bad st a ha.1 hbad)
      pre post {}
    rcases hf : foldAttrs decodeAttr {} (pre ++ a :: post) with ⟨m, _ | e⟩
    · rw [hf] at herr; exact absurd rfl herr
    · exact ⟨e, rfl⟩
  · intro msg
    unfold decodeAlertMessage
    cases msg with
    | none => exact Or.inr ⟨_, rfl⟩
    | some msg =>
      simp only
      cases NewAttributeDecoder msg.Data with
      | error e => exact Or.inr ⟨_, rfl⟩
      | ok ad =>
        simp only
        rcases forNext decodeBody (msg.Data.length + 1) {} ad with ⟨m, ad1⟩
        simp only
        cases ad1.Err with
        | none => exact Or.inl ⟨_, rfl⟩
        | some e => exact Or.inr ⟨_, rfl⟩

/-- C4 at a group-name attribute followed by a stray byte, and followed by an origin
attribute of one byte. -/
theorem decodeAlertMessage_errors_witness :
    decodeAlertMessage none = (none, some NlError.messageIsNil) ∧
      decodeAlertMessage (some ⟨{}, wireAttrs [attr 15 [65, 0]] ++ [1]⟩) =
        (none, some (NlError.wrapped "failed to create attribute decoder"
          NlError.invalidAttribute)) ∧
      (∃ e, decodeAlertMessage (some ⟨{}, wireAttrs ([attr 15 [65, 0]] ++ attr 14 [1] :: [])⟩) =
        (none, some (NlError.wrapped "failed to decode attributes" e))) ∧
      (∀ msg, (∃ m, decodeAlertMessage msg = (some m, none)) ∨
        (∃ e, decodeAlertMessage msg = (none, some e))) :=
  decodeAlertMessage_errors {} [attr 15 [65, 0]] [] (attr 14 [1]) [1]
    (by decide) (by decide) (by decide) (by decide) (by decide)

/-- C7, the claim as stated fails: the attribute of id 0x400E (origin with the
network-byte-order flag) is well-formed and its id with the top bit cleared, 0x400E, is none
of the eight consumed ids, yet the attribute decoder masks that flag too and the switch
takes the attribute as the origin: inserting it changes the result. -/
theorem decodeAlertMessage_flagged_id_is_consumed :
    (attr 16398 [1, 0]).wellFormed ∧ 16398 % 32768 ∉ consumedIds ∧
      decodeAlertMessage (some ⟨{}, wireAttrs ([] ++ attr 16398 [1, 0] :: [])⟩) =
        (some { Origin := "hardware" }, none) ∧
      decodeAlertMessage (some ⟨{}, wireAttrs ([] ++ [])⟩) = (some {}, none) ∧
      decodeAlertMessage (some ⟨{}, wireAttrs ([] ++ attr 16398 [1, 0] :: [])⟩) ≠
        decodeAlertMessage (some ⟨{}, wireAttrs ([] ++ [])⟩) := by
  decide

/-- C7, amended. For every well-formed attribute sequence and every well-formed attribute
whose id, after masking off the two flag bits at the top (nested and network byte order),
is none of the eight ids `decodeAlertMessage` consumes, inserting that attribute at any
position leaves the result of `decodeAlertMessage` unchanged: the same message and no error
where there was none. -/
theorem decodeAlertMessage_skips_unknown (hdr : Header) (pre post : List Attribute)
    (a : Attribute) (hpre : ∀ x ∈ pre, x.wellFormed) (hpost : ∀ x ∈ post, x.wellFormed)
    (ha : a.wellFormed) (hid : a.Typ % 16384 ∉ consumedIds) :
    decodeAlertMessage (some ⟨hdr, wireAttrs (pre ++ a :: post)⟩) =
      decodeAlertMessage (some ⟨hdr, wireAttrs (pre ++ post)⟩) := by
  have hwf : ∀ x ∈ pre ++ a :: post, x.wellFormed := by
    intro x hx
    rcases List.mem_append.mp hx with h | h
    · exact hpre x h
    · rcases List.mem_cons.mp h with h | h
      · exact h ▸ ha
      · exact hpost x h
  have hwf1 : ∀ x ∈ pre ++ post, x.wellFormed := by
    intro x hx
    rcases List.mem_append.mp hx with h | h
    · exact hpre x h
    · exact hpost x h
  rw [decodeAlertMessage_wire hdr _ hwf, decodeAlertMessage_wire hdr _ hwf1,
    foldAttrs_skip decodeAttr a (fun st => decodeAttr_skip st a hid) pre post]

/-- C7, amended, at an attribute of id 99 with the nested flag, inserted between an origin
and a payload attribute. -/
theorem decodeAlertMessage_skips_unknown_witness :
    decodeAlertMessage (some ⟨{}, wireAttrs ([attr 14 [1, 0]] ++ attr 32867 [1, 2, 3] ::
        [attr 7 [8, 9]])⟩) =
      decodeAlertMessage (some ⟨{}, wireAttrs ([attr 14 [1, 0]] ++ [attr 7 [8, 9]])⟩) :=
  decodeAlertMessage_skips_unknown {} [attr 14 [1, 0]] [attr 7 [8, 9]] (attr 32867 [1, 2, 3])
    (by decide) (by decide) (by decide) (by decide)

theorem foldAttrs_skip_all {σ : Type} (f : σ → Attribute → σ × Option NlError)
    (l : List Attribute) (hskip : ∀ a ∈ l, ∀ st, f st a = (st, none)) :
    ∀ st, foldAttrs f st l = (st, none) := by
  induction l with
  | nil => intro st; rfl
  | cons a rest ih =>
    intro st
    simp only [foldAttrs, hskip a (List.mem_cons_self _ _) st]
    exact ih (fun x hx => hskip x (List.mem_cons_of_mem _ hx)) st

theorem foldAttrs_skip_then {σ : Type} (f : σ → Attribute → σ × Option NlError)
    (pre : List Attribute) (hskip : ∀ a ∈ pre, ∀ st, f st a = (st, none)) (a : Attribute)
    (rest : List Attribute) (st st1 : σ) (ha : f st a = (st1, none)) :
    foldAttrs f st (pre ++ a :: rest) = foldAttrs f st1 rest := by
  induction pre with
  | nil => simp [foldAttrs, ha]
  | cons b more ih =>
    simp only [List.cons_append, foldAttrs, hskip b (List.mem_cons_self _ _) st]
    exact ih (fun x hx => hskip x (List.mem_cons_of_mem _ hx))

/-- The origin attribute sets `Origin` and nothing else. -/
theorem decodeAttr_origin (st : AlertMsg) (o : Nat) (ho : o < 65536) :
    decodeAttr st (attr NET_DM_ATTR_ORIGIN (putUint 2 o)) =
      ({ st with Origin := parseOrigin o }, none) := by
  simp [decodeAttr, decodeBody, attr, AttributeDecoder.Typ, AttributeDecoder.Uint,
    putUint_length, leUint_putUint_two o ho, NET_DM_ATTR_HW_TRAP_GROUP_NAME,
    NET_DM_ATTR_HW_TRAP_NAME, NET_DM_ATTR_ORIGIN]

/-- The nested group an ingress-port attribute holds: interface index, then name with `k`
terminating NUL bytes. -/
theorem portGroup_wellFormed (i : Nat) (s : List Nat) (k : Nat)
    (hlen : s.length + k ≤ 65516) :
    (∀ x ∈ [attr NET_DM_ATTR_PORT_NETDEV_IFINDEX (putUint 4 i),
        attr NET_DM_ATTR_PORT_NETDEV_NAME (s ++ List.replicate k 0)], x.wellFormed) ∧
      (wireAttrs [attr NET_DM_ATTR_PORT_NETDEV_IFINDEX (putUint 4 i),
        attr NET_DM_ATTR_PORT_NETDEV_NAME (s ++ List.replicate k 0)]).length + 4 < 65536 := by
  have w0 : (attr NET_DM_ATTR_PORT_NETDEV_IFINDEX (putUint 4 i)).wellFormed := by
    simp [Attribute.wellFormed, attr, putUint_length, nlaHeaderLen,
      NET_DM_ATTR_PORT_NETDEV_IFINDEX]
  have w1 : (attr NET_DM_ATTR_PORT_NETDEV_NAME (s ++ List.replicate k 0)).wellFormed := by
    refine ⟨by simp [attr, NET_DM_ATTR_PORT_NETDEV_NAME], ?_, ?_⟩
    · rfl
    · simp only [attr, nlaHeaderLen, List.length_append, List.length_replicate]
      omega
  refine ⟨?_, ?_⟩
  · intro x hx
    simp only [List.mem_cons, List.mem_singleton, List.mem_nil_iff, or_false] at hx
    rcases hx with rfl | rfl
    · exact w0
    · exact w1
  · simp only [wireAttrs, List.length_append, List.length_nil]
    rw [wire_length _ w0, wire_length _ w1]
    simp only [attr, nlaHeaderLen, putUint_length, List.length_append, List.length_replicate,
      add_zero]
    have := nlaAlign_lt (4 + (s.length + k))
    have h8 : nlaAlign (4 + 4) = 8 := by decide
    omega

theorem portDecode_group (p : AlertMsgPort) (i : Nat) (s : List Nat) (k : Nat)
    (hi : i < 4294967296) (hs : s.getLast? ≠ some 0) (hlen : s.length + k ≤ 65516) :
    AlertMsgPort.decode p (wireAttrs [attr NET_DM_ATTR_PORT_NETDEV_IFINDEX (putUint 4 i),
        attr NET_DM_ATTR_PORT_NETDEV_NAME (s ++ List.replicate k 0)]) =
      (⟨i, goString s⟩, none) := by
  rw [portDecode_wire p _ (portGroup_wellFormed i s k hlen).1]
  simp [foldAttrs, decodePortAttr, AlertMsgPort.decodeBody, attr, AttributeDecoder.Typ,
    AttributeDecoder.Uint, AttributeDecoder.String, putUint_length,
    leUint_putUint_four i hi, trimNul_append_zeros s k hs, NET_DM_ATTR_PORT_NETDEV_IFINDEX,
    NET_DM_ATTR_PORT_NETDEV_NAME]

theorem inPortAttr_id (nested : Bool) (i : Nat) (s : List Nat) (k : Nat) :
    (inPortAttr nested i s k).Typ % 16384 = 4 := by
  cases nested
  · show (4 : Nat) % 16384 = 4
    decide
  · show (32768 + 4 : Nat) % 16384 = 4
    decide

theorem inPortAttr_data (nested : Bool) (i : Nat) (s : List Nat) (k : Nat) :
    (inPortAttr nested i s k).Data =
      wireAttrs [attr NET_DM_ATTR_PORT_NETDEV_IFINDEX (putUint 4 i),
        attr NET_DM_ATTR_PORT_NETDEV_NAME (s ++ List.replicate k 0)] := rfl

/-- An attribute whose masked id is the ingress port and whose group decodes to `port`
sets `Port` and nothing else. -/
theorem decodeAttr_inPort (st : AlertMsg) (a : Attribute) (port : AlertMsgPort)
    (hid : a.Typ % 16384 = 4) (hd : AlertMsgPort.decode st.Port a.Data = (port, none)) :
    decodeAttr st a = ({ st with Port := port }, none) := by
  simp [decodeAttr, decodeBody, AttributeDecoder.Typ, AttributeDecoder.Do, hd, switch_id, hid,
    NET_DM_ATTR_HW_TRAP_GROUP_NAME, NET_DM_ATTR_HW_TRAP_NAME, NET_DM_ATTR_ORIGIN,
    NET_DM_ATTR_IN_PORT]

/-- The ingress-port attribute, with or without the nested flag in its id, sets `Port` and
nothing else. -/
theorem decodeAttr_port (st : AlertMsg) (nested : Bool) (i : Nat) (s : List Nat) (k : Nat)
    (hi : i < 4294967296) (hs : s.getLast? ≠ some 0) (hlen : s.length + k ≤ 65516) :
    decodeAttr st (inPortAttr nested i s k) = ({ st with Port := ⟨i, goString s⟩ }, none) := by
  apply decodeAttr_inPort st _ _ (inPortAttr_id nested i s k)
  rw [inPortAttr_data]
  exact portDecode_group st.Port i s k hi hs hlen

/-- The origin attribute sets `Origin` and nothing else. -/
theorem decodeAttr_originAttr (st : AlertMsg) (o : Nat) (ho : o < 65536) :
    decodeAttr st (originAttr o) = ({ st with Origin := parseOrigin o }, none) :=
  decodeAttr_origin st o ho

/-- An attribute that is neither origin nor ingress port and has a value the switch can take
records no error and leaves `Origin` and `Port` as they were, whatever else it sets. -/
theorem decodeAttr_other (st : AlertMsg) (a : Attribute) (h : a.other) :
    ∃ st1, decodeAttr st a = (st1, none) ∧ st1.Origin = st.Origin ∧ st1.Port = st.Port := by
  obtain ⟨_, hnb, ho, hp⟩ := h
  simp only [Attribute.badValue, not_or, not_and, Decidable.not_not] at hnb
  obtain ⟨h2, h4, h8, _⟩ := hnb
  simp only [NET_DM_ATTR_ORIGIN, NET_DM_ATTR_IN_PORT] at ho hp
  simp only [NET_DM_ATTR_ORIGIN, NET_DM_ATTR_PROTO, NET_DM_ATTR_ORIG_LEN,
    NET_DM_ATTR_TIMESTAMP] at h2 h4 h8
  simp only [decodeAttr, decodeBody, AttributeDecoder.Typ, switch_id,
    NET_DM_ATTR_HW_TRAP_GROUP_NAME, NET_DM_ATTR_HW_TRAP_NAME, NET_DM_ATTR_ORIGIN,
    NET_DM_ATTR_IN_PORT, NET_DM_ATTR_TIMESTAMP, NET_DM_ATTR_PROTO, NET_DM_ATTR_ORIG_LEN,
    NET_DM_ATTR_PAYLOAD]
  split_ifs <;> first
    | exact ⟨_, rfl, rfl, rfl⟩
    | simp_all [AttributeDecoder.Uint]

theorem foldAttrs_others (l : List Attribute) (h : ∀ x ∈ l, x.other) :
    ∀ st : AlertMsg, ∃ st1, foldAttrs decodeAttr st l = (st1, none) ∧
      st1.Origin = st.Origin ∧ st1.Port = st.Port := by
  induction l with
  | nil => intro st; exact ⟨st, rfl, rfl, rfl⟩
  | cons a rest ih =>
    intro st
    obtain ⟨st1, e1, o1, p1⟩ := decodeAttr_other st a (h a (List.mem_cons_self _ _))
    obtain ⟨st2, e2, o2, p2⟩ := ih (fun x hx => h x (List.mem_cons_of_mem _ hx)) st1
    refine ⟨st2, ?_, o2.trans o1, p2.trans p1⟩
    simp only [foldAttrs, e1, e2]

theorem foldAttrs_append {σ : Type} (f : σ → Attribute → σ × Option NlError)
    (l1 l2 : List Attribute) :
    ∀ (st st1 : σ), foldAttrs f st l1 = (st1, none) →
      foldAttrs f st (l1 ++ l2) = foldAttrs f st1 l2 := by
  induction l1 with
  | nil =>
    intro st st1 h
    simp only [foldAttrs, Prod.mk.injEq, and_true] at h
    rw [h]; rfl
  | cons a rest ih =>
    intro st st1 h
    simp only [foldAttrs, List.cons_append] at h ⊢
    rcases hf : f st a with ⟨st2, _ | e⟩
    · rw [hf] at h
      exact ih st2 st1 h
    · rw [hf] at h
      simp at h

theorem mem_five {α : Type} (l1 l2 l3 : List α) (a b : α) (P : α → Prop)
    (h1 : ∀ x ∈ l1, P x) (h2 : ∀ x ∈ l2, P x) (h3 : ∀ x ∈ l3, P x) (ha : P a) (hb : P b) :
    ∀ x ∈ l1 ++ a :: (l2 ++ b :: l3), P x := by
  intro x hx
  simp only [List.mem_append, List.mem_cons] at hx
  rcases hx with h | rfl | h | rfl | h
  · exact h1 x h
  · exact ha
  · exact h2 x h
  · exact hb
  · exact h3 x h

/-- C5. For every origin code `o`, interface index `i` and name `s`, on a well-formed
message that carries the origin attribute (id 14, 16 bits) of value `o` and the nested
ingress-port attribute (id 4, with or without the nested flag) holding ifindex `i` and the
NUL-terminated name `s`, in either order and among any other attributes of an alert (trap
and group names, timestamp, protocol, original length, payload, unknown ids),
`decodeAlertMessage` returns no error and an `AlertMsg` with `Origin` "software" when
`o = 0`, "hardware" when `o = 1` and "unknown" otherwise, and with `Port = (i, s)`. -/
theorem decodeAlertMessage_origin_port (hdr : Header) (o i : Nat) (s : List Nat) (k : Nat)
    (nested : Bool) (pre mid post : List Attribute)
    (ho : o < 65536) (hi : i < 4294967296) (hs : s.getLast? ≠ some 0)
    (hlen : s.length + k ≤ 65516)
    (hpre : ∀ x ∈ pre, x.other) (hmid : ∀ x ∈ mid, x.other) (hpost : ∀ x ∈ post, x.other) :
    (∃ m, decodeAlertMessage (some ⟨hdr, wireAttrs (pre ++ originAttr o ::
          (mid ++ inPortAttr nested i s k :: post))⟩) = (some m, none) ∧
        m.Origin = (if o = 0 then "software" else if o = 1 then "hardware" else "unknown") ∧
        m.Port = ⟨i, goString s⟩) ∧
    (∃ m, decodeAlertMessage (some ⟨hdr, wireAttrs (pre ++ inPortAttr nested i s k ::
          (mid ++ originAttr o :: post))⟩) = (some m, none) ∧
        m.Origin = (if o = 0 then "software" else if o = 1 then "hardware" else "unknown") ∧
        m.Port = ⟨i, goString s⟩) := by
  have wo : (originAttr o).wellFormed := by
    simp [originAttr, Attribute.wellFormed, attr, putUint_length, nlaHeaderLen,
      NET_DM_ATTR_ORIGIN]
  have wp : (inPortAttr nested i s k).wellFormed := by
    have h := (portGroup_wellFormed i s k hlen).2
    refine ⟨?_, rfl, ?_⟩
    · cases nested <;> simp [inPortAttr, attr, NET_DM_ATTR_IN_PORT]
    · change nlaHeaderLen + (wireAttrs _).length < 65536
      unfold nlaHeaderLen
      omega
  have horigin : parseOrigin o =
      if o = 0 then "software" else if o = 1 then "hardware" else "unknown" := rfl
  constructor
  · have hwf := mem_five pre mid post (originAttr o) (inPortAttr nested i s k)
      Attribute.wellFormed (fun x hx => (hpre x hx).1) (fun x hx => (hmid x hx).1)
      (fun x hx => (hpost x hx).1) wo wp
    obtain ⟨s1, e1, o1, p1⟩ := foldAttrs_others pre hpre {}
    have e2 := decodeAttr_originAttr s1 o ho
    obtain ⟨s3, e3, o3, p3⟩ := foldAttrs_others mid hmid { s1 with Origin := parseOrigin o }
    have e4 := decodeAttr_port s3 nested i s k hi hs hlen
    obtain ⟨s5, e5, o5, p5⟩ := foldAttrs_others post hpost { s3 with Port := ⟨i, goString s⟩ }
    refine ⟨s5, ?_, ?_, ?_⟩
    · rw [decodeAlertMessage_wire hdr _ hwf, foldAttrs_append decodeAttr pre _ {} s1 e1]
      simp only [foldAttrs, e2]
      rw [foldAttrs_append decodeAttr mid _ _ s3 e3]
      simp only [foldAttrs, e4, e5]
    · rw [o5]
      show s3.Origin = _
      rw [o3, horigin]
    · rw [p5]
  · have hwf := mem_five pre mid post (inPortAttr nested i s k) (originAttr o)
      Attribute.wellFormed (fun x hx => (hpre x hx).1) (fun x hx => (hmid x hx).1)
      (fun x hx => (hpost x hx).1) wp wo
    obtain ⟨s1, e1, o1, p1⟩ := foldAttrs_others pre hpre {}
    have e2 := decodeAttr_port s1 nested i s k hi hs hlen
    obtain ⟨s3, e3, o3, p3⟩ := foldAttrs_others mid hmid { s1 with Port := ⟨i, goString s⟩ }
    have e4 := decodeAttr_originAttr s3 o ho
    obtain ⟨s5, e5, o5, p5⟩ := foldAttrs_others post hpost { s3 with Origin := parseOrigin o }
    refine ⟨s5, ?_, ?_, ?_⟩
    · rw [decodeAlertMessage_wire hdr _ hwf, foldAttrs_append decodeAttr pre _ {} s1 e1]
      simp only [foldAttrs, e2]
      rw [foldAttrs_append decodeAttr mid _ _ s3 e3]
      simp only [foldAttrs, e4, e5]
    · rw [o5, horigin]
    · rw [p5]
      show s3.Port = _
      rw [p3]

/-- C5 at `o = 0`, `i = 7`, `s = "eth0"`, in an alert that also carries a group name, a
timestamp, a protocol, an original length, a payload and an unknown attribute: the theorem
at that message, and the whole `AlertMsg` the message decodes to. -/
theorem decodeAlertMessage_origin_port_witness :
    ((∃ m, decodeAlertMessage (some ⟨{}, wireAttrs (scenarioPre ++ originAttr 0 ::
          (scenarioMid ++ inPortAttr true 7 eth0 1 :: scenarioPost))⟩) = (some m, none) ∧
        m.Origin = (if 0 = 0 then "software" else if 0 = 1 then "hardware" else "unknown") ∧
        m.Port = ⟨7, goString eth0⟩) ∧
    (∃ m, decodeAlertMessage (some ⟨{}, wireAttrs (scenarioPre ++ inPortAttr true 7 eth0 1 ::
          (scenarioMid ++ originAttr 0 :: scenarioPost))⟩) = (some m, none) ∧
        m.Origin = (if 0 = 0 then "software" else if 0 = 1 then "hardware" else "unknown") ∧
        m.Port = ⟨7, goString eth0⟩)) ∧
    decodeAlertMessage (some ⟨{}, wireAttrs (scenarioPre ++ originAttr 0 ::
        (scenarioMid ++ inPortAttr true 7 eth0 1 :: scenarioPost))⟩) =
      (some { Timestamp := ⟨1, 500000000⟩, Origin := "software", Group := "l2_drops",
              Port := ⟨7, "eth0"⟩,
              Packet := { Length := 6, OrigLength := 60, Protocol := 2048,
                          Payload := [255, 255, 255, 255, 255, 255] } }, none) :=
  ⟨decodeAlertMessage_origin_port {} 0 7 eth0 1 true scenarioPre scenarioMid scenarioPost
    (by decide) (by decide) (by decide) (by decide) (by decide) (by decide) (by decide),
   by decide⟩

/-! ## Captured length and payload -/

theorem leUint_take_two_lt (b : List Nat) (hb : ∀ x ∈ b, x < 256) :
    leUint (b.take 2) < 65536 := by
  match b, hb with
  | [], _ => simp [leUint]
  | [x], h =>
    have := h x (by simp)
    simp only [List.take, leUint]
    omega
  | x :: y :: rest, h =>
    have hx := h x (by simp)
    have hy := h y (by simp)
    simp only [List.take, leUint]
    omega

/-- The value of an attribute read from a byte buffer is shorter than 65536 bytes. -/
theorem unmarshal_data_lt (b : List Nat) (a : Attribute) (hb : ∀ x ∈ b, x < 256)
    (h : Attribute.unmarshal b = Except.ok a) : a.Data.length < 65536 := by
  have hl := leUint_take_two_lt b hb
  simp only [Attribute.unmarshal] at h
  split_ifs at h
  · cases h; simp
  · cases h
    simp only [List.length_drop, List.length_take]
    omega

theorem NewAttributeDecoder_ok (b : List Nat) (ad : AttributeDecoder)
    (h : NewAttributeDecoder b = Except.ok ad) : ad.b = b ∧ ad.a = {} ∧ ad.err = none := by
  unfold NewAttributeDecoder at h
  split at h
  · cases h
  · cases h; exact ⟨rfl, rfl, rfl⟩

theorem Next_bytes (ad : AttributeDecoder) (hb : ∀ x ∈ ad.b, x < 256)
    (ha : ad.a.Data.length < 65536) :
    (∀ x ∈ ad.Next.2.b, x < 256) ∧ ad.Next.2.a.Data.length < 65536 := by
  unfold AttributeDecoder.Next
  split_ifs
  · exact ⟨hb, ha⟩
  · exact ⟨hb, ha⟩
  · split
    · exact ⟨hb, ha⟩
    · rename_i a hu
      have hd : ∀ x ∈ ad.b.drop ad.i, x < 256 := fun x hx => hb x (List.mem_of_mem_drop hx)
      have := unmarshal_data_lt _ a hd hu
      split_ifs <;> exact ⟨hb, this⟩

theorem decodeBody_length (st : AlertMsg) (ad : AttributeDecoder)
    (h : st.Packet.Length = st.Packet.Payload.length) (ha : ad.a.Data.length < 65536) :
    (decodeBody st ad).1.Packet.Length = (decodeBody st ad).1.Packet.Payload.length := by
  simp only [decodeBody]
  split_ifs
  any_goals exact h
  simp only [AttributeDecoder.Bytes]
  exact Nat.mod_eq_of_lt (by omega)

/-- The captured length equals the number of payload bytes after the loop of
`decodeAlertMessage`, on every byte buffer. -/
theorem forNext_length (fuel : Nat) (ad : AttributeDecoder) (hb : ∀ x ∈ ad.b, x < 256)
    (ha : ad.a.Data.length < 65536) :
    (forNext decodeBody fuel {} ad).1.Packet.Length =
      (forNext decodeBody fuel {} ad).1.Packet.Payload.length := by
  have := forNext_invariant decodeBody
    (fun st ad => st.Packet.Length = st.Packet.Payload.length ∧
      (∀ x ∈ ad.b, x < 256) ∧ ad.a.Data.length < 65536)
    (fun st ad h => ⟨h.1, Next_bytes ad h.2.1 h.2.2⟩)
    (fun st ad h => by
      obtain ⟨fb, _, fa⟩ := decodeBody_frame st ad
      refine ⟨decodeBody_length st ad h.1 h.2.2, ?_, ?_⟩
      · rw [fb]; exact h.2.1
      · rw [fa]; exact h.2.2)
    fuel {} ad ⟨rfl, hb, ha⟩
  exact this.1

theorem decodeAttr_payload (st : AlertMsg) (a : Attribute) :
    (decodeAttr st a).1.Packet.Payload =
      if a.Typ % 16384 = NET_DM_ATTR_PAYLOAD then a.Data else st.Packet.Payload := by
  simp only [decodeAttr, decodeBody, AttributeDecoder.Typ, switch_id, AttributeDecoder.Bytes]
  split_ifs <;> simp_all [NET_DM_ATTR_HW_TRAP_GROUP_NAME, NET_DM_ATTR_HW_TRAP_NAME,
    NET_DM_ATTR_ORIGIN, NET_DM_ATTR_IN_PORT, NET_DM_ATTR_TIMESTAMP, NET_DM_ATTR_PROTO,
    NET_DM_ATTR_ORIG_LEN, NET_DM_ATTR_PAYLOAD]

theorem foldAttrs_payload (attrs : List Attribute) (hwf : ∀ a ∈ attrs, a.wellFormed) :
    ∀ (st m : AlertMsg), foldAttrs decodeAttr st attrs = (m, none) →
      m.Packet.Payload = attrs.foldl
        (fun acc a => if a.Typ % 16384 = NET_DM_ATTR_PAYLOAD then a.Data else acc)
        st.Packet.Payload := by
  induction attrs with
  | nil =>
    intro st m h
    simp only [foldAttrs, Prod.mk.injEq, and_true] at h
    simp [h]
  | cons a rest ih =>
    intro st m h
    have hp := decodeAttr_payload st a
    simp only [foldAttrs] at h
    rcases hd : decodeAttr st a with ⟨st1, _ | e⟩
    · rw [hd] at h hp
      simp only at h hp
      have := ih (fun x hx => hwf x (List.mem_cons_of_mem _ hx)) st1 m h
      rw [this, hp, List.foldl_cons]
    · rw [hd] at h
      simp at h

/-- C6. For every message of bytes that `decodeAlertMessage` decodes successfully, the
returned `AlertMsg` has `Packet.Length` equal to the number of bytes of `Packet.Payload`;
and when the data is a well-formed attribute sequence, the payload is the value of its last
payload attribute (id 7 once the attribute decoder has masked off the two flag bits), empty
(length 0) when there is none, whatever the original-length attribute holds. -/
theorem decodeAlertMessage_length_eq_payload (msg : Message) (m : AlertMsg)
    (hbytes : ∀ x ∈ msg.Data, x < 256)
    (hok : decodeAlertMessage (some msg) = (some m, none)) :
    m.Packet.Length = m.Packet.Payload.length ∧
      (∀ attrs : List Attribute, (∀ a ∈ attrs, a.wellFormed) → msg.Data = wireAttrs attrs →
        m.Packet.Payload = lastPayload attrs ∧ m.Packet.Length = (lastPayload attrs).length) := by
  have hlen : m.Packet.Length = m.Packet.Payload.length := by
    unfold decodeAlertMessage at hok
    simp only at hok
    cases hn : NewAttributeDecoder msg.Data with
    | error e => rw [hn] at hok; simp at hok
    | ok ad =>
      rw [hn] at hok
      simp only at hok
      obtain ⟨hb, ha, _⟩ := NewAttributeDecoder_ok _ _ hn
      have hinv := forNext_length (msg.Data.length + 1) ad (by rw [hb]; exact hbytes)
        (by rw [ha]; simp)
      rcases hf : forNext decodeBody (msg.Data.length + 1) {} ad with ⟨m1, ad1⟩
      rw [hf] at hok hinv
      simp only at hok hinv
      cases he : ad1.Err with
      | some e => rw [he] at hok; simp at hok
      | none =>
        rw [he] at hok
        simp only [Prod.mk.injEq, Option.some.injEq, and_true] at hok
        rw [← hok]
        exact hinv
  refine ⟨hlen, ?_⟩
  intro attrs hwf hdata
  have hw := decodeAlertMessage_wire msg.Header attrs hwf
  have hmsg : msg = ⟨msg.Header, wireAttrs attrs⟩ := by
    cases msg; simp only at hdata; rw [hdata]
  rw [← hmsg, hok] at hw
  rcases hf : foldAttrs decodeAttr {} attrs with ⟨m1, _ | e⟩
  · rw [hf] at hw
    simp only [Prod.mk.injEq, Option.some.injEq, and_true] at hw
    have := foldAttrs_payload attrs hwf {} m1 hf
    rw [← hw] at this
    have hp : m.Packet.Payload = lastPayload attrs := this
    exact ⟨hp, by rw [hlen, hp]⟩
  · rw [hf] at hw
    simp at hw

/-- C6 at `payloadMsg`: original length 1500, captured length 2, the last payload, which
carries a flag bit in its id. -/
theorem decodeAlertMessage_length_eq_payload_witness :
    (∀ x ∈ payloadMsg.Data, x < 256) ∧
      decodeAlertMessage (some payloadMsg) =
        (some { Packet := { Length := 2, OrigLength := 1500, Payload := [9, 9] } }, none) ∧
      ((2 : Nat) = [9, 9].length ∧
        (∀ attrs : List Attribute, (∀ a ∈ attrs, a.wellFormed) →
          payloadMsg.Data = wireAttrs attrs →
          [9, 9] = lastPayload attrs ∧ 2 = (lastPayload attrs).length)) :=
  ⟨by decide, by decide,
    decodeAlertMessage_length_eq_payload payloadMsg
      { Packet := { Length := 2, OrigLength := 1500, Payload := [9, 9] } }
      (by decide) (by decide)⟩

/-! ## `parseTime` -/

/-- C14, the claim as stated fails: the count `2^63` is below `2^64`, the conversion
`int64` wraps it to `-2^63` and `parseTime` returns an instant before the epoch, not the
seconds `2^63 div 10^9` and nanoseconds `2^63 mod 10^9`. -/
theorem parseTime_wraps_at_two_pow_63 :
    (9223372036854775808 : Nat) < 2 ^ 64 ∧
      parseTime 9223372036854775808 = ⟨-9223372037, 145224192⟩ ∧
      parseTime 9223372036854775808 ≠
        ⟨((9223372036854775808 / 10 ^ 9 : Nat) : Int),
         ((9223372036854775808 % 10 ^ 9 : Nat) : Int)⟩ := by
  decide

/-- C14, amended. For every nanosecond count `n` with `0 <= n < 2^63`, `parseTime n` is the
instant exactly `n` nanoseconds after the Unix epoch: its seconds are `n div 10^9` and its
nanoseconds are `n mod 10^9`. -/
theorem parseTime_below_two_pow_63 (n : Nat) (h : n < 2 ^ 63) :
    parseTime n = ⟨((n / 10 ^ 9 : Nat) : Int), ((n % 10 ^ 9 : Nat) : Int)⟩ := by
  have h64 : n % 2 ^ 64 = n := Nat.mod_eq_of_lt (by omega)
  have h63 : n < 9223372036854775808 := by omega
  have hi : int64 n = (n : Int) := by
    unfold int64
    rw [h64]
    simp [h63]
  unfold parseTime timeUnix
  rw [hi]
  have hd : Int.tdiv (n : Int) 1000000000 = (n : Int) / 1000000000 :=
    Int.tdiv_eq_ediv (by omega) (by omega)
  by_cases hc : (n : Int) < 0 ∨ (n : Int) ≥ 1000000000
  · simp only [hc, if_true, hd]
    have hn : ¬ ((n : Int) - (n : Int) / 1000000000 * 1000000000 < 0) := by omega
    simp only [hn, if_false, Time.mk.injEq]
    constructor <;> push_cast <;> omega
  · simp only [hc, if_false, Time.mk.injEq]
    constructor <;> push_cast <;> omega

/-- C14, amended, at one and a half seconds. -/
theorem parseTime_below_two_pow_63_witness :
    (1500000000 : Nat) < 2 ^ 63 ∧
      parseTime 1500000000 =
        ⟨((1500000000 / 10 ^ 9 : Nat) : Int), ((1500000000 % 10 ^ 9 : Nat) : Int)⟩ :=
  ⟨by decide, parseTime_below_two_pow_63 1500000000 (by decide)⟩

/-! ## The batched network exporter -/

theorem processMsg_config (ex ex1 : TelegrafExporter) (h : ex1.config = ex.config)
    (msg : WriteMsg) : ex1.processMsg msg = ex.processMsg msg := by
  unfold TelegrafExporter.processMsg
  rw [h]

theorem accepted_config (ex ex1 : TelegrafExporter) (h : ex1.config = ex.config)
    (msgs : List WriteMsg) : ex1.accepted msgs = ex.accepted msgs := by
  unfold TelegrafExporter.accepted
  simp only [processMsg_config ex ex1 h]

theorem step_config (ex : TelegrafExporter) (ev : TelegrafEvent) :
    (ex.step ev).1.config = ex.config := by
  cases ev with
  | message msg =>
    simp only [TelegrafExporter.step]
    rcases ex.processMsg msg with ⟨_ | t, _ | e⟩ <;> rfl
  | tick =>
    simp only [TelegrafExporter.step, Queue.TakeUntil]
    split_ifs <;> rfl

/-- A tick drains the whole queue: one batch with every queued record in queue order when
there is any, nothing otherwise. -/
theorem step_tick (ex : TelegrafExporter) :
    ex.step TelegrafEvent.tick =
      ({ ex with sendQueue := { items := [] } },
        if ex.sendQueue.items = [] then [] else [TelegrafAction.sendJSON ex.sendQueue.items]) := by
  have ht : ex.sendQueue.items.takeWhile (fun _ => true) = ex.sendQueue.items := by
    simp
  have hd : ex.sendQueue.items.dropWhile (fun _ => true) = [] := by
    simp
  simp only [TelegrafExporter.step, Queue.TakeUntil, ht, hd, List.length_eq_zero]
  split_ifs <;> rfl

/-- Between ticks the loop only queues: after the messages `msgs` the queue holds what it
held followed by the accepted records in arrival order, and no batch has been sent. -/
theorem run_messages (msgs : List WriteMsg) :
    ∀ ex : TelegrafExporter,
      (ex.run (msgs.map TelegrafEvent.message)).1 =
        { ex with sendQueue := { items := ex.sendQueue.items ++ ex.accepted msgs } } ∧
      batchesOf (ex.run (msgs.map TelegrafEvent.message)).2 = [] := by
  induction msgs with
  | nil =>
    intro ex
    simp [TelegrafExporter.run, TelegrafExporter.accepted, batchesOf]
  | cons msg rest ih =>
    intro ex
    simp only [List.map_cons, TelegrafExporter.run]
    have hc := step_config ex (TelegrafEvent.message msg)
    have ha := accepted_config ex _ hc rest
    obtain ⟨h1, h2⟩ := ih (ex.step (TelegrafEvent.message msg)).1
    rw [ha] at h1
    rcases hs : ex.step (TelegrafEvent.message msg) with ⟨ex1, acts⟩
    rw [hs] at h1 h2
    simp only at h1 h2
    rcases hr : ex1.run (List.map TelegrafEvent.message rest) with ⟨ex2, acts2⟩
    rw [hr] at h1 h2
    simp only at h1 h2 ⊢
    simp only [TelegrafExporter.step] at hs
    simp only [TelegrafExporter.accepted, List.filterMap_cons]
    rcases hp : ex.processMsg msg with ⟨_ | t, _ | e⟩ <;> rw [hp] at hs <;>
      simp only [Prod.mk.injEq] at hs <;> obtain ⟨rfl, rfl⟩ := hs
    · exact ⟨by simpa [TelegrafExporter.accepted] using h1, by simpa [batchesOf] using h2⟩
    · exact ⟨by simpa [TelegrafExporter.accepted] using h1, by simpa [batchesOf] using h2⟩
    · exact ⟨by simpa [TelegrafExporter.accepted, Queue.Put] using h1,
        by simpa [batchesOf] using h2⟩
    · exact ⟨by simpa [TelegrafExporter.accepted] using h1, by simpa [batchesOf] using h2⟩

theorem run_append (evs1 evs2 : List TelegrafEvent) :
    ∀ ex : TelegrafExporter,
      ex.run (evs1 ++ evs2) =
        ((((ex.run evs1).1).run evs2).1, (ex.run evs1).2 ++ (((ex.run evs1).1).run evs2).2) := by
  induction evs1 with
  | nil => intro ex; simp [TelegrafExporter.run]
  | cons ev rest ih =>
    intro ex
    have h : (ex.step ev).1.run (rest.append evs2) = _ := ih (ex.step ev).1
    simp only [List.cons_append, TelegrafExporter.run, List.append_assoc]
    rw [h]

/-- From an empty queue, the messages `msgs` followed by a tick: nothing is sent before the
tick, the tick hands over exactly one batch with the accepted records in arrival order when
there is one, none otherwise, and the queue is empty again. -/
theorem run_messages_tick (ex : TelegrafExporter) (msgs : List WriteMsg)
    (hq : ex.sendQueue.items = []) :
    (ex.run (msgs.map TelegrafEvent.message ++ [TelegrafEvent.tick])).1.sendQueue.items = [] ∧
      batchesOf (ex.run (msgs.map TelegrafEvent.message)).2 = [] ∧
      batchesOf (ex.run (msgs.map TelegrafEvent.message ++ [TelegrafEvent.tick])).2 =
        (if ex.accepted msgs = [] then [] else [ex.accepted msgs]) ∧
      ((ex.run (msgs.map TelegrafEvent.message)).1.step TelegrafEvent.tick).2 =
        (if ex.accepted msgs = [] then []
          else [TelegrafAction.sendJSON (ex.accepted msgs)]) := by
  obtain ⟨h1, h2⟩ := run_messages msgs ex
  rw [hq, List.nil_append] at h1
  have hb : ∀ l1 l2, batchesOf (l1 ++ l2) = batchesOf l1 ++ batchesOf l2 := by
    intro l1 l2
    induction l1 with
    | nil => rfl
    | cons a rest ih => cases a <;> simp [batchesOf, ih]
  rw [run_append]
  simp only [TelegrafExporter.run, hb, h2, List.nil_append, List.append_nil]
  rw [h1, step_tick]
  refine ⟨rfl, trivial, ?_, ?_⟩
  · simp only
    split_ifs <;> rfl
  · simp only

/-- C11. In the batched network exporter, whatever the state at a timer tick, the tick
leaves the send queue empty, as `Start` does; from there, for every sequence of messages
taken before the next tick, K of them accepted, nothing is handed to the sender before that
tick, and that tick hands over exactly one batch when K > 0, holding the K records in
arrival order, none when K = 0, and leaves the queue empty again; messages that carry an
alert are all accepted. -/
theorem TelegrafExporter_tick_sends_one_batch (ex : TelegrafExporter) (msgs : List WriteMsg)
    (alerts : List (AlertMsg × Option Packet)) :
    ((ex.step TelegrafEvent.tick).1.sendQueue.items = [] ∧
      (TelegrafExporter.Start ex.config).sendQueue.items = []) ∧
    (batchesOf ((ex.step TelegrafEvent.tick).1.run (msgs.map TelegrafEvent.message)).2 = [] ∧
      (((ex.step TelegrafEvent.tick).1.run (msgs.map TelegrafEvent.message)).1.step
          TelegrafEvent.tick).2 =
        (if ex.accepted msgs = [] then []
          else [TelegrafAction.sendJSON (ex.accepted msgs)]) ∧
      ((ex.step TelegrafEvent.tick).1.run
          (msgs.map TelegrafEvent.message ++ [TelegrafEvent.tick])).1.sendQueue.items = []) ∧
    (batchesOf ((TelegrafExporter.Start ex.config).run
          (msgs.map TelegrafEvent.message)).2 = [] ∧
      (((TelegrafExporter.Start ex.config).run (msgs.map TelegrafEvent.message)).1.step
          TelegrafEvent.tick).2 =
        (if ex.accepted msgs = [] then []
          else [TelegrafAction.sendJSON (ex.accepted msgs)]) ∧
      ((TelegrafExporter.Start ex.config).run
          (msgs.map TelegrafEvent.message ++ [TelegrafEvent.tick])).1.sendQueue.items = []) ∧
    (ex.accepted (alerts.map (fun a => { AlertMsg := some a.1, Packet := a.2 }))).length =
      alerts.length := by
  have hq1 : (ex.step TelegrafEvent.tick).1.sendQueue.items = [] := by
    rw [step_tick]
  have hq2 : (TelegrafExporter.Start ex.config).sendQueue.items = [] := rfl
  have ha1 := accepted_config ex (ex.step TelegrafEvent.tick).1
    (step_config ex TelegrafEvent.tick) msgs
  have ha2 : (TelegrafExporter.Start ex.config).accepted msgs = ex.accepted msgs :=
    accepted_config ex _ rfl msgs
  obtain ⟨a1, a2, _, a4⟩ := run_messages_tick (ex.step TelegrafEvent.tick).1 msgs hq1
  obtain ⟨b1, b2, _, b4⟩ := run_messages_tick (TelegrafExporter.Start ex.config) msgs hq2
  rw [ha1] at a4
  rw [ha2] at b4
  refine ⟨⟨hq1, hq2⟩, ⟨a2, a4, a1⟩, ⟨b2, b4, b1⟩, ?_⟩
  induction alerts with
  | nil => rfl
  | cons a rest ih =>
    simp only [TelegrafExporter.accepted, List.map_cons, List.filterMap_cons,
      TelegrafExporter.processMsg, List.length_cons] at ih ⊢
    rw [ih]

/-! ## `DissectPacket` raises no panic of its own, and every alert is routed -/

theorem storeEthernet_some (packet : Packet) (e : PacketEthernet)
    (f : PacketEthernet → PacketEthernet) (h : packet.Ethernet = some e) :
    storeEthernet packet f = Except.ok { packet with Ethernet := some (f e) } := by
  simp [storeEthernet, h]

theorem storeIP_some (packet : Packet) (i : PacketIP) (f : PacketIP → PacketIP)
    (h : packet.IP = some i) :
    storeIP packet f = Except.ok { packet with IP := some (f i) } := by
  simp [storeIP, h]

theorem storeTransport_some (packet : Packet) (t : PacketTransport)
    (f : PacketTransport → PacketTransport) (h : packet.Transport = some t) :
    storeTransport packet f = Except.ok { packet with Transport := some (f t) } := by
  simp [storeTransport, h]

/-- One iteration of the range loop never panics: the nil test allocates the sub-record
before the first assignment through its pointer; what it returns is `dissectStep`. -/
theorem dissectStep_run_ok (s : Stringers) (d : Decoding) (packet : Packet)
    (typ : LayerType) :
    dissectStep.run s d packet typ = Except.ok (dissectStep s d packet typ) := by
  cases typ with
  | Ethernet =>
    cases h : packet.Ethernet with
    | none =>
      simp [dissectStep.run, dissectStep, ethOrNew, h, storeEthernet, Except.bind]
    | some e =>
      simp [dissectStep.run, dissectStep, ethOrNew, h, storeEthernet, Except.bind]
  | Dot1Q =>
    cases h : packet.Ethernet with
    | none =>
      simp [dissectStep.run, dissectStep, ethOrNew, h, storeEthernet, Except.bind]
    | some e =>
      simp [dissectStep.run, dissectStep, ethOrNew, h, storeEthernet, Except.bind]
  | IPv4 =>
    cases h : packet.IP with
    | none => simp [dissectStep.run, dissectStep, ipOrNew, h, storeIP, Except.bind]
    | some e => simp [dissectStep.run, dissectStep, ipOrNew, h, storeIP, Except.bind]
  | IPv6 =>
    cases h : packet.IP with
    | none => simp [dissectStep.run, dissectStep, ipOrNew, h, storeIP, Except.bind]
    | some e => simp [dissectStep.run, dissectStep, ipOrNew, h, storeIP, Except.bind]
  | TCP =>
    cases h : packet.Transport with
    | none =>
      simp [dissectStep.run, dissectStep, transportOrNew, h, storeTransport, Except.bind]
    | some e =>
      simp [dissectStep.run, dissectStep, transportOrNew, h, storeTransport, Except.bind]
  | UDP =>
    cases h : packet.Transport with
    | none =>
      simp [dissectStep.run, dissectStep, transportOrNew, h, storeTransport, Except.bind]
    | some e =>
      simp [dissectStep.run, dissectStep, transportOrNew, h, storeTransport, Except.bind]
  | Zero => rfl
  | Payload => rfl
  | other n => rfl

/-- The range loop never panics, whatever list of layer types the decoder reports. -/
theorem dissectLayers_run_ok (s : Stringers) (d : Decoding) (l : List LayerType) :
    ∀ packet : Packet,
      dissectLayers.run s d packet l = Except.ok (l.foldl (dissectStep s d) packet) := by
  induction l with
  | nil => intro packet; rfl
  | cons typ rest ih =>
    intro packet
    simp only [dissectLayers.run, dissectStep_run_ok, List.foldl_cons]
    exact ih _

/-- Whenever the call of the layers decoder returns, `DissectPacket` returns, and what it
returns is a present packet beside the error. -/
theorem DissectPacket_run_ok (s : Stringers) (decoder : List Nat → Except Fault Decoding)
    (data : List Nat) (d : Decoding) (h : decoder data = Except.ok d) :
    DissectPacket.run s decoder data =
      Except.ok (some (setPacketType (dissectLayers s d)), dissectErr d) := by
  simp only [DissectPacket.run, h, dissectLayers_run_ok, dissectLayers]

theorem Write_some (ex : Exporter) (msg : WriteMsg) :
    ex.Write (some msg) =
      (if ex.inMessages.isSome then { ex with senders := ex.senders ++ [msg] } else ex,
        none) := by
  unfold Exporter.Write
  split_ifs <;> rfl

/-- C12. For every byte sequence, the empty one included, and whatever the layers decoder
returns for it (any list of decoded layers, any next layer type, an error or none),
`DissectPacket` raises no panic and returns a present summary beside the error; so for
every alert taken from the alert channel the routing step is reached with the alert and
that summary, `Write` is called on every exporter in order and returns nil, and every
exporter whose channel exists gains the goroutine that sends it the message; no value taken
from the channel ends at the `continue` of a nil packet. -/
theorem DissectPacket_present_and_routed (s : Stringers)
    (decoder : List Nat → Except Fault Decoding) (data : List Nat) (d dp : Decoding)
    (exporters : List Exporter) (a : AlertMsg)
    (hdata : decoder data = Except.ok d) (hpay : decoder a.Packet.Payload = Except.ok dp) :
    DissectPacket.run s decoder data =
        Except.ok (some (setPacketType (dissectLayers s d)), dissectErr d) ∧
      processAlertMessages.handle s decoder exporters (some a) =
        Except.ok (some (exporters.map (fun ex =>
          (if ex.inMessages.isSome then
              { ex with senders := ex.senders ++
                  [{ AlertMsg := some a, Packet := some (setPacketType (dissectLayers s dp)) }] }
            else ex, none)))) ∧
      (∀ alertMsg, processAlertMessages.handle s decoder exporters alertMsg ≠
        Except.ok none) := by
  refine ⟨DissectPacket_run_ok s decoder data d hdata, ?_, ?_⟩
  · simp only [processAlertMessages.handle,
      DissectPacket_run_ok s decoder a.Packet.Payload dp hpay, routeMsg, Write_some]
  · intro alertMsg
    cases alertMsg with
    | none => simp [processAlertMessages.handle]
    | some b =>
      cases hb : decoder b.Packet.Payload with
      | error f => simp [processAlertMessages.handle, DissectPacket.run, hb]
      | ok db =>
        simp [processAlertMessages.handle, DissectPacket_run_ok s decoder _ db hb]

/-- C12 at the empty byte sequence, on which the layers decoder reports an error, and at an
alert with a payload of three bytes routed to an exporter that never started, a blocked one
and an idle one. -/
theorem DissectPacket_present_and_routed_witness :
    DissectPacket.run plainStringers shortDecoder [] =
        Except.ok (some { PacketType := "Unknown" },
          some (DissectError.couldNotDecode "Ethernet packet too small")) ∧
      (DissectPacket.run plainStringers shortDecoder [] =
        Except.ok (some (setPacketType (dissectLayers plainStringers
          { decoded := [], lt := LayerType.Zero, err := some "Ethernet packet too small" })),
          dissectErr
            { decoded := [], lt := LayerType.Zero, err := some "Ethernet packet too small" }) ∧
      processAlertMessages.handle plainStringers shortDecoder
          [unstartedExporter, blockedExporter, idleExporter] (some shortAlert) =
        Except.ok (some ([unstartedExporter, blockedExporter, idleExporter].map (fun ex =>
          (if ex.inMessages.isSome then
              { ex with senders := ex.senders ++
                  [{ AlertMsg := some shortAlert,
                     Packet := some (setPacketType (dissectLayers plainStringers
                       { decoded := [], lt := LayerType.Zero,
                         err := some "Ethernet packet too small" })) }] }
            else ex, none)))) ∧
      (∀ alertMsg, processAlertMessages.handle plainStringers shortDecoder
          [unstartedExporter, blockedExporter, idleExporter] alertMsg ≠ Except.ok none)) :=
  ⟨rfl, DissectPacket_present_and_routed plainStringers shortDecoder []
    { decoded := [], lt := LayerType.Zero, err := some "Ethernet packet too small" }
    { decoded := [], lt := LayerType.Zero, err := some "Ethernet packet too small" }
    [unstartedExporter, blockedExporter, idleExporter] shortAlert rfl rfl⟩

/-- C13. For every list of started exporters and every non-nil message, the routing step
calls `Write` on each exporter in turn; each call returns nil at once, whatever the state of
that exporter (loop blocked or not, senders already waiting or not), and changes only that
exporter, which gains one goroutine waiting to send the message; an exporter whose loop is at
its `select` can then take the message, whatever the other exporters do, while an exporter
whose loop is blocked takes nothing. -/
theorem routeMsg_independent (exporters : List Exporter) (msg : WriteMsg)
    (hstarted : ∀ ex ∈ exporters, ex.inMessages = some Chan.isOpen) :
    routeMsg exporters msg =
        exporters.map (fun ex => ({ ex with senders := ex.senders ++ [msg] }, none)) ∧
      (∀ B ∈ exporters, B.receiving = true →
        (B.Write (some msg)).1.receive B.senders.length =
          some (msg, { B with taken := B.taken ++ [msg] })) ∧
      (∀ A ∈ exporters, A.receiving = false →
        (A.Write (some msg)).2 = none ∧ ∀ k, (A.Write (some msg)).1.receive k = none) := by
  have hw : ∀ ex ∈ exporters, ex.Write (some msg) =
      ({ ex with senders := ex.senders ++ [msg] }, none) := by
    intro ex hex
    simp [Exporter.Write, hstarted ex hex]
  refine ⟨?_, ?_, ?_⟩
  · unfold routeMsg
    exact List.map_congr_left hw
  · intro B hB hr
    rw [hw B hB]
    simp [Exporter.receive, hr, hstarted B hB, List.eraseIdx_append_of_length_le]
  · intro A hA hr
    rw [hw A hA]
    refine ⟨rfl, fun k => ?_⟩
    simp [Exporter.receive, hr]

/-- C13 at a blocked PCAP exporter with two senders waiting, followed by an idle telegraf
exporter. -/
theorem routeMsg_independent_witness :
    routeMsg [blockedExporter, idleExporter] l2Msg =
        [blockedExporter, idleExporter].map
          (fun ex => ({ ex with senders := ex.senders ++ [l2Msg] }, none)) ∧
      (∀ B ∈ [blockedExporter, idleExporter], B.receiving = true →
        (B.Write (some l2Msg)).1.receive B.senders.length =
          some (l2Msg, { B with taken := B.taken ++ [l2Msg] })) ∧
      (∀ A ∈ [blockedExporter, idleExporter], A.receiving = false →
        (A.Write (some l2Msg)).2 = none ∧ ∀ k, (A.Write (some l2Msg)).1.receive k = none) :=
  routeMsg_independent [blockedExporter, idleExporter] l2Msg (by decide)

end Dropwatch
